import Mathlib

/-!
Verification development for the Barnes-Hut octree core
(`src/physics/octree.rs`, `OptimizedOctree` and its helpers).

The Rust scalar type `Scalar` (an `f64`) is modelled by an arbitrary
linear ordered field `α`; the tree-structure claims are settled at
`α := ℚ` (exact arithmetic), and the force-kernel claim at `α := ℝ`
with `Real.sqrt` standing for `f64::sqrt`.  The square root used inside
force traversal (`Vector::length`) is passed as an explicit function
parameter `sqrtFn`, so that statements which do not depend on its values
hold for every choice of it.

Recursive Rust functions whose termination is not structural
(`build_recursive`) are modelled with an explicit fuel parameter and an
`Option` result: `none` means the recursion did not complete within the
given fuel.  Fuel recursion is expressed with `Nat.rec` so that every
definition evaluates by kernel reduction on concrete inputs.
-/

/-- A 3-component vector, modelling `avian3d::math::Vector` (`DVec3`). -/
structure Vec3 (α : Type) where
  x : α
  y : α
  z : α
  deriving DecidableEq

namespace Vec3

variable {α : Type} [LinearOrderedField α]

/-- `Vector::ZERO`. -/
def zero : Vec3 α := ⟨0, 0, 0⟩

instance : Zero (Vec3 α) := ⟨Vec3.zero⟩

instance : Add (Vec3 α) := ⟨fun a b => ⟨a.x + b.x, a.y + b.y, a.z + b.z⟩⟩

instance : Sub (Vec3 α) := ⟨fun a b => ⟨a.x - b.x, a.y - b.y, a.z - b.z⟩⟩

/-- Scalar multiplication `v * s`. -/
def scale (v : Vec3 α) (s : α) : Vec3 α := ⟨v.x * s, v.y * s, v.z * s⟩

/-- Scalar division `v / s`. -/
def divScalar (v : Vec3 α) (s : α) : Vec3 α := ⟨v.x / s, v.y / s, v.z / s⟩

/-- Componentwise minimum, modelling `Vector::min`. -/
def compMin (a b : Vec3 α) : Vec3 α := ⟨min a.x b.x, min a.y b.y, min a.z b.z⟩

/-- Componentwise maximum, modelling `Vector::max`. -/
def compMax (a b : Vec3 α) : Vec3 α := ⟨max a.x b.x, max a.y b.y, max a.z b.z⟩

/-- `Vector::length_squared`. -/
def lengthSq (v : Vec3 α) : α := v.x * v.x + v.y * v.y + v.z * v.z

/-- Componentwise `≤` on vectors. -/
def vle (a b : Vec3 α) : Prop := a.x ≤ b.x ∧ a.y ≤ b.y ∧ a.z ≤ b.z

instance (a b : Vec3 α) : Decidable (vle a b) := by
  unfold vle; infer_instance

instance : AddCommMonoid (Vec3 α) where
  add := (· + ·)
  zero := 0
  add_assoc := fun ⟨ax, ay, az⟩ ⟨bx, bv, bz⟩ ⟨cx, cy, cz⟩ => by
    show Vec3.mk ((ax + bx) + cx) ((ay + bv) + cy) ((az + bz) + cz) =
      Vec3.mk (ax + (bx + cx)) (ay + (bv + cy)) (az + (bz + cz))
    rw [add_assoc, add_assoc, add_assoc]
  zero_add := fun ⟨ax, ay, az⟩ => by
    show Vec3.mk (0 + ax) (0 + ay) (0 + az) = Vec3.mk ax ay az
    rw [zero_add, zero_add, zero_add]
  add_zero := fun ⟨ax, ay, az⟩ => by
    show Vec3.mk (ax + 0) (ay + 0) (az + 0) = Vec3.mk ax ay az
    rw [add_zero, add_zero, add_zero]
  add_comm := fun ⟨ax, ay, az⟩ ⟨bx, bv, bz⟩ => by
    show Vec3.mk (ax + bx) (ay + bv) (az + bz) =
      Vec3.mk (bx + ax) (bv + ay) (bz + az)
    rw [add_comm, add_comm az bz, add_comm ay bv]
  nsmul := nsmulRec

end Vec3

/-- Axis-aligned bounding box, modelling `Aabb3d`. -/
structure Aabb3d (α : Type) where
  min : Vec3 α
  max : Vec3 α
  deriving DecidableEq

namespace Aabb3d

variable {α : Type} [LinearOrderedField α]

/-- `Aabb3d::center`: `(min + max) * 0.5`. -/
def center (b : Aabb3d α) : Vec3 α := (b.min + b.max).scale (1 / 2)

/-- `Aabb3d::size`: `max - min`. -/
def size (b : Aabb3d α) : Vec3 α := b.max - b.min

/-- `Aabb3d::subdivide_into_children`, in the source's array order
(child `i` covers the octant whose bit pattern is `i = x | y<<1 | z<<2`). -/
def subdivideIntoChildren (b : Aabb3d α) : List (Aabb3d α) :=
  let c := b.center
  [ ⟨b.min, c⟩,
    ⟨⟨c.x, b.min.y, b.min.z⟩, ⟨b.max.x, c.y, c.z⟩⟩,
    ⟨⟨b.min.x, c.y, b.min.z⟩, ⟨c.x, b.max.y, c.z⟩⟩,
    ⟨⟨c.x, c.y, b.min.z⟩, ⟨b.max.x, b.max.y, c.z⟩⟩,
    ⟨⟨b.min.x, b.min.y, c.z⟩, ⟨c.x, c.y, b.max.z⟩⟩,
    ⟨⟨c.x, b.min.y, c.z⟩, ⟨b.max.x, c.y, b.max.z⟩⟩,
    ⟨⟨b.min.x, c.y, c.z⟩, ⟨c.x, b.max.y, b.max.z⟩⟩,
    ⟨c, b.max⟩ ]

/-- Membership of a point in a (closed) box. -/
def containsPoint (b : Aabb3d α) (p : Vec3 α) : Prop :=
  Vec3.vle b.min p ∧ Vec3.vle p b.max

instance (b : Aabb3d α) (p : Vec3 α) : Decidable (b.containsPoint p) := by
  unfold containsPoint; infer_instance

end Aabb3d

/-- A body, modelling `OctreeBody`; `Entity` handles are modelled as `ℕ`. -/
structure OctreeBody (α : Type) where
  position : Vec3 α
  entity : ℕ
  mass : α
  deriving DecidableEq

/-- Struct-of-arrays body storage, modelling `OptimizedOctreeBodies`. -/
structure OptimizedOctreeBodies (α : Type) where
  entities : List ℕ
  positions : List (Vec3 α)
  masses : List α
  deriving DecidableEq

namespace OptimizedOctreeBodies

variable {α : Type} [LinearOrderedField α]

/-- `OptimizedOctreeBodies::new` (capacity reservation is not observable
and is omitted). -/
def new : OptimizedOctreeBodies α := ⟨[], [], []⟩

/-- `OptimizedOctreeBodies::len`. -/
def len (bs : OptimizedOctreeBodies α) : ℕ := bs.entities.length

/-- `OptimizedOctreeBodies::is_empty`. -/
def isEmpty (bs : OptimizedOctreeBodies α) : Bool := bs.entities.isEmpty

/-- `OptimizedOctreeBodies::push`. -/
def push (bs : OptimizedOctreeBodies α) (entity : ℕ) (position : Vec3 α)
    (mass : α) : OptimizedOctreeBodies α :=
  ⟨bs.entities ++ [entity], bs.positions ++ [position], bs.masses ++ [mass]⟩

/-- `OptimizedOctreeBodies::clear`. -/
def clear (_bs : OptimizedOctreeBodies α) : OptimizedOctreeBodies α := ⟨[], [], []⟩

/-- `OptimizedOctreeBodies::total_mass`: sum of the mass array. -/
def totalMass (bs : OptimizedOctreeBodies α) : α := bs.masses.sum

/-- The fold computing the mass-weighted position sum inside
`OptimizedOctreeBodies::center_of_mass`. -/
def weightedSum (bs : OptimizedOctreeBodies α) : Vec3 α :=
  ((bs.positions.zip bs.masses).map (fun pm => pm.1.scale pm.2)).foldl
    (fun acc pos => acc + pos) 0

/-- `OptimizedOctreeBodies::center_of_mass`. -/
def centerOfMass (bs : OptimizedOctreeBodies α) : Vec3 α :=
  if bs.isEmpty then 0
  else if bs.totalMass > 0 then bs.weightedSum.divScalar bs.totalMass
  else 0

/-- The list of bodies stored in the block, in index order
(`OptimizedOctreeBodies::iter`). -/
def toList (bs : OptimizedOctreeBodies α) : List (OctreeBody α) :=
  (List.range bs.len).map (fun i =>
    ⟨bs.positions.getD i 0, bs.entities.getD i 0, bs.masses.getD i 0⟩)

end OptimizedOctreeBodies

/-- `NodeType`. -/
inductive NodeType where
  | Internal
  | External
  deriving DecidableEq

/-- `HotNodeData`. -/
structure HotNodeData (α : Type) where
  center_of_mass : Vec3 α
  total_mass : α
  bounds_center : Vec3 α
  bounds_size : Vec3 α
  deriving DecidableEq

/-- `ColdNodeData`; `children_indices` is a list of length 8. -/
structure ColdNodeData (α : Type) where
  bounds : Aabb3d α
  children_indices : List (Option ℕ)
  body_count : ℕ
  node_type : NodeType
  deriving DecidableEq

/-- `OptimizedOctreeNode`. -/
structure OptimizedOctreeNode (α : Type) where
  hot_data : HotNodeData α
  cold_data : ColdNodeData α
  bodies : OptimizedOctreeBodies α
  deriving DecidableEq

namespace OptimizedOctreeNode

variable {α : Type} [LinearOrderedField α]

/-- `OptimizedOctreeNode::new_internal`. -/
def newInternal (bounds : Aabb3d α) (center_of_mass : Vec3 α)
    (total_mass : α) : OptimizedOctreeNode α :=
  { hot_data :=
      { center_of_mass := center_of_mass
        total_mass := total_mass
        bounds_center := bounds.center
        bounds_size := bounds.size }
    cold_data :=
      { bounds := bounds
        children_indices := List.replicate 8 none
        body_count := 0
        node_type := NodeType.Internal }
    bodies := OptimizedOctreeBodies.new }

/-- `OptimizedOctreeNode::new_external` (the capacity argument only
reserves memory and is omitted). -/
def newExternal (bounds : Aabb3d α) : OptimizedOctreeNode α :=
  { hot_data :=
      { center_of_mass := 0
        total_mass := 0
        bounds_center := bounds.center
        bounds_size := bounds.size }
    cold_data :=
      { bounds := bounds
        children_indices := List.replicate 8 none
        body_count := 0
        node_type := NodeType.External }
    bodies := OptimizedOctreeBodies.new }

/-- `OptimizedOctreeNode::is_internal`. -/
def isInternal (n : OptimizedOctreeNode α) : Bool :=
  n.cold_data.node_type = NodeType.Internal

/-- `OptimizedOctreeNode::is_external`. -/
def isExternal (n : OptimizedOctreeNode α) : Bool :=
  n.cold_data.node_type = NodeType.External

/-- `OptimizedOctreeNode::bounds`. -/
def bounds (n : OptimizedOctreeNode α) : Aabb3d α := n.cold_data.bounds

/-- `OptimizedOctreeNode::add_body`: push the body, then recompute the
aggregates from the full arrays. -/
def addBody (n : OptimizedOctreeNode α) (entity : ℕ) (position : Vec3 α)
    (mass : α) : OptimizedOctreeNode α :=
  let bodies := n.bodies.push entity position mass
  { n with
    bodies := bodies
    cold_data := { n.cold_data with body_count := bodies.len }
    hot_data := { n.hot_data with
      total_mass := bodies.totalMass
      center_of_mass := bodies.centerOfMass } }

/-- `OptimizedOctreeNode::set_child_index`. -/
def setChildIndex (n : OptimizedOctreeNode α) (child_index : ℕ)
    (node_index : Option ℕ) : OptimizedOctreeNode α :=
  { n with cold_data := { n.cold_data with
      children_indices := n.cold_data.children_indices.set child_index node_index } }

/-- `OptimizedOctreeNode::update_internal_data`. -/
def updateInternalData (n : OptimizedOctreeNode α) (center_of_mass : Vec3 α)
    (total_mass : α) (body_count : ℕ) : OptimizedOctreeNode α :=
  { n with
    hot_data := { n.hot_data with
      center_of_mass := center_of_mass
      total_mass := total_mass }
    cold_data := { n.cold_data with body_count := body_count } }

end OptimizedOctreeNode

/-- Index-based node pool, modelling `OptimizedOctreeNodePool`.
The Rust `free_indices` vector pushes and pops at its back (LIFO); it is
modelled as a list whose head is the top of that stack. -/
structure OptimizedOctreeNodePool (α : Type) where
  nodes : List (OptimizedOctreeNode α)
  free_indices : List ℕ
  next_index : ℕ
  deriving DecidableEq

namespace OptimizedOctreeNodePool

variable {α : Type} [LinearOrderedField α]

/-- `OptimizedOctreeNodePool::new` (also the observable state produced by
`with_capacity` and by `clear`). -/
def new : OptimizedOctreeNodePool α := ⟨[], [], 0⟩

/-- `OptimizedOctreeNodePool::allocate_node`; returns the updated pool and
the index of the stored node. -/
def allocateNode (p : OptimizedOctreeNodePool α) (node : OptimizedOctreeNode α) :
    OptimizedOctreeNodePool α × ℕ :=
  match p.free_indices with
  | index :: rest => (⟨p.nodes.set index node, rest, p.next_index⟩, index)
  | [] => (⟨p.nodes ++ [node], [], p.next_index + 1⟩, p.next_index)

/-- `OptimizedOctreeNodePool::get_node`. -/
def getNode (p : OptimizedOctreeNodePool α) (index : ℕ) :
    Option (OptimizedOctreeNode α) :=
  p.nodes[index]?

/-- Write through `get_node_mut`: replace the node at `index` (callers
only invoke this at indices they have checked to be present). -/
def setNode (p : OptimizedOctreeNodePool α) (index : ℕ)
    (node : OptimizedOctreeNode α) : OptimizedOctreeNodePool α :=
  { p with nodes := p.nodes.set index node }

/-- `OptimizedOctreeNodePool::deallocate_node`. -/
def deallocateNode (p : OptimizedOctreeNodePool α) (index : ℕ) :
    OptimizedOctreeNodePool α :=
  if index < p.nodes.length then
    let nodes := match p.nodes[index]? with
      | some node =>
          p.nodes.set index
            { node with
              bodies := node.bodies.clear
              cold_data := { node.cold_data with
                children_indices := List.replicate 8 none } }
      | none => p.nodes
    ⟨nodes, index :: p.free_indices, p.next_index⟩
  else p

/-- `OptimizedOctreeNodePool::clear`. -/
def clear (_p : OptimizedOctreeNodePool α) : OptimizedOctreeNodePool α := ⟨[], [], 0⟩

/-- `OptimizedOctreeNodePool::len`. -/
def len (p : OptimizedOctreeNodePool α) : ℕ := p.nodes.length

end OptimizedOctreeNodePool

/-- The optimized octree, modelling `OptimizedOctree`.  The atomic force
counter is modelled as a plain `ℕ` (queries return the updated value). -/
structure OptimizedOctree (α : Type) where
  root_index : Option ℕ
  theta : α
  min_distance : α
  max_force : α
  leaf_threshold : ℕ
  min_distance_squared : α
  node_pool : OptimizedOctreeNodePool α
  force_calculation_count : ℕ
  deriving DecidableEq

namespace OptimizedOctree

variable {α : Type} [LinearOrderedField α]

/-- `OptimizedOctree::new`. -/
def new (theta min_distance max_force : α) : OptimizedOctree α :=
  { root_index := none
    theta := theta
    min_distance := min_distance
    max_force := max_force
    leaf_threshold := 4
    min_distance_squared := min_distance * min_distance
    node_pool := OptimizedOctreeNodePool.new
    force_calculation_count := 0 }

/-- `OptimizedOctree::with_leaf_threshold`. -/
def withLeafThreshold (oct : OptimizedOctree α) (leaf_threshold : ℕ) :
    OptimizedOctree α :=
  { oct with leaf_threshold := leaf_threshold }

/-- `OptimizedOctree::determine_child_index`: the per-axis
`coordinate >= center` tests combined as the 3-bit index
`dx | (dy << 1) | (dz << 2)`. -/
def determineChildIndex (position : Vec3 α) (bounds : Aabb3d α) : ℕ :=
  let center := bounds.center
  let dx : ℕ := if position.x ≥ center.x then 1 else 0
  let dy : ℕ := if position.y ≥ center.y then 1 else 0
  let dz : ℕ := if position.z ≥ center.z then 1 else 0
  dx ||| (dy <<< 1) ||| (dz <<< 2)

/-- The body-distribution loop of `build_recursive`: each body is pushed
onto `child_bodies[determine_child_index(..)]` in input order, so slot `i`
receives, in order, exactly the bodies whose child index is `i`. -/
def distribute (bounds : Aabb3d α) : List (OctreeBody α) → ℕ → List (OctreeBody α)
  | [], _ => []
  | b :: rest, i =>
      if determineChildIndex b.position bounds = i then
        b :: distribute bounds rest i
      else distribute bounds rest i

/-- Build an external child node and fill it with its bodies
(`new_external` followed by the `add_body` loop). -/
def mkExternalNode (bounds : Aabb3d α) (bodies : List (OctreeBody α)) :
    OptimizedOctreeNode α :=
  bodies.foldl (fun n b => n.addBody b.entity b.position b.mass)
    (OptimizedOctreeNode.newExternal bounds)

/-- One iteration step state of the child-creation loop in
`build_recursive`: the accumulated `(total_mass, weighted_position_sum,
total_body_count)`. -/
def accumulateBodies (bodies : List (OctreeBody α)) (m : α) (w : Vec3 α)
    (c : ℕ) : α × Vec3 α × ℕ :=
  (bodies.foldl (fun a b => a + b.mass) m,
   bodies.foldl (fun a b => a + b.position.scale b.mass) w,
   c + bodies.length)

/-- The child-creation loop of `build_recursive` over the eight octant
slots.  `recur` is the recursive call (`build_recursive` at the next fuel
level); entries carry `(octant index, child bounds, bodies for child)`. -/
def buildChildrenLoop
    (recur : OptimizedOctreeNodePool α → ℕ → List (OctreeBody α) →
      Option (OptimizedOctreeNodePool α))
    (lt parentIdx : ℕ) :
    List (ℕ × Aabb3d α × List (OctreeBody α)) → OptimizedOctreeNodePool α →
    α → Vec3 α → ℕ →
    Option (OptimizedOctreeNodePool α × α × Vec3 α × ℕ)
  | [], pool, m, w, c => some (pool, m, w, c)
  | (i, cb, bs) :: rest, pool, m, w, c =>
    if bs.isEmpty then buildChildrenLoop recur lt parentIdx rest pool m w c
    else
      let isLeaf := bs.length ≤ lt
      let childNode :=
        if isLeaf then mkExternalNode cb bs
        else OptimizedOctreeNode.newInternal cb 0 0
      let acc' := accumulateBodies bs m w c
      let alloc := pool.allocateNode childNode
      let pool₂ :=
        match alloc.1.getNode parentIdx with
        | some pn => alloc.1.setNode parentIdx (pn.setChildIndex i (some alloc.2))
        | none => alloc.1
      if isLeaf then
        buildChildrenLoop recur lt parentIdx rest pool₂ acc'.1 acc'.2.1 acc'.2.2
      else
        match recur pool₂ alloc.2 bs with
        | none => none
        | some pool₃ =>
          buildChildrenLoop recur lt parentIdx rest pool₃ acc'.1 acc'.2.1 acc'.2.2

/-- `OptimizedOctree::build_recursive`, with an explicit fuel bound on the
recursion depth; `none` means the recursion did not complete within the
fuel (the Rust function would still be recursing). -/
def buildRecursive (lt : ℕ) (fuel : ℕ) :
    OptimizedOctreeNodePool α → ℕ → List (OctreeBody α) →
    Option (OptimizedOctreeNodePool α) :=
  Nat.rec
    (motive := fun _ => OptimizedOctreeNodePool α → ℕ → List (OctreeBody α) →
      Option (OptimizedOctreeNodePool α))
    (fun _ _ _ => none)
    (fun _ recur pool nodeIndex bodies =>
      if bodies.length ≤ lt then
        some (match pool.getNode nodeIndex with
          | some node =>
              pool.setNode nodeIndex
                (bodies.foldl (fun n b => n.addBody b.entity b.position b.mass)
                  { node with cold_data :=
                      { node.cold_data with node_type := NodeType.External } })
          | none => pool)
      else
        match pool.getNode nodeIndex with
        | none => some pool
        | some node =>
          let bounds := node.bounds
          let childBounds := bounds.subdivideIntoChildren
          let entries := (List.range 8).map (fun i =>
            (i, childBounds.getD i ⟨0, 0⟩, distribute bounds bodies i))
          match buildChildrenLoop recur lt nodeIndex entries pool 0 0 0 with
          | none => none
          | some (pool', m, w, c) =>
            some (match pool'.getNode nodeIndex with
              | some pn =>
                  pool'.setNode nodeIndex
                    (pn.updateInternalData
                      (if m > 0 then w.divScalar m else 0) m c)
              | none => pool'))
    fuel

/-- `OptimizedOctree::deallocate_tree_recursive`.  In every pool reachable
through the public interface each child index strictly exceeds its
parent's index, so `pool.len` bounds the recursion depth; the fuel is a
device of the model only. -/
def deallocTreeRecursive (fuel : ℕ) :
    OptimizedOctreeNodePool α → ℕ → OptimizedOctreeNodePool α :=
  Nat.rec
    (motive := fun _ => OptimizedOctreeNodePool α → ℕ → OptimizedOctreeNodePool α)
    (fun pool _ => pool)
    (fun _ recur pool nodeIndex =>
      let childIndices :=
        match pool.getNode nodeIndex with
        | some node =>
            if node.isInternal then node.cold_data.children_indices.filterMap id
            else []
        | none => []
      let pool' := childIndices.foldl recur pool
      pool'.deallocateNode nodeIndex)
    fuel

/-- The prologue of `OptimizedOctree::build`: `root_index.take()` followed
by `deallocate_tree_recursive` on the old root, if there was one. -/
def afterDealloc (oct : OptimizedOctree α) : OptimizedOctree α :=
  match oct.root_index with
  | some oldRoot =>
      { oct with
        root_index := none
        node_pool := deallocTreeRecursive oct.node_pool.len oct.node_pool oldRoot }
  | none => oct

/-- The root-bounds computation of `OptimizedOctree::build`: the
componentwise min/max folds over all positions, expanded on every side by
`(max - min) * 0.01`. -/
def buildRootBounds (first : OctreeBody α) (rest : List (OctreeBody α)) :
    Aabb3d α :=
  let lo := rest.foldl (fun m b => m.compMin b.position) first.position
  let hi := rest.foldl (fun m b => m.compMax b.position) first.position
  let expansion := (hi - lo).scale (1 / 100)
  ⟨lo - expansion, hi + expansion⟩

/-- `OptimizedOctree::build`.  Both arms of the capacity check produce an
observably empty pool (`with_capacity` makes a fresh one, `clear` empties
the existing one), so the model resets the pool to `new`.  The fuel only
bounds `build_recursive`; `none` means that recursion did not finish. -/
def build (fuel : ℕ) (oct : OptimizedOctree α) (bodies : List (OctreeBody α)) :
    Option (OptimizedOctree α) :=
  let oct₀ := afterDealloc oct
  match bodies with
  | [] => some { oct₀ with root_index := none }
  | first :: rest =>
    let pool := OptimizedOctreeNodePool.new (α := α)
    let rootBounds := buildRootBounds first rest
    if (first :: rest).length ≤ oct₀.leaf_threshold then
      let alloc := pool.allocateNode (mkExternalNode rootBounds (first :: rest))
      some { oct₀ with root_index := some alloc.2, node_pool := alloc.1 }
    else
      let alloc := pool.allocateNode (OptimizedOctreeNode.newInternal rootBounds 0 0)
      match buildRecursive oct₀.leaf_threshold fuel alloc.1 alloc.2
        (first :: rest) with
      | none => none
      | some pool' =>
        some { oct₀ with root_index := some alloc.2, node_pool := pool' }

/-- `OptimizedOctree::calculate_force_from_point`, the pairwise force
kernel, with the square root passed explicitly. -/
def calculateForceFromPoint (sqrtFn : α → α) (minDistSq maxForce : α)
    (bodyPos : Vec3 α) (bodyMass : α) (otherPos : Vec3 α) (otherMass : α)
    (g : α) : Vec3 α :=
  let direction := otherPos - bodyPos
  let distanceSquared := max direction.lengthSq minDistSq
  let distance := sqrtFn distanceSquared
  let forceMagnitude := min (g * bodyMass * otherMass / distanceSquared) maxForce
  (direction.divScalar distance).scale forceMagnitude

/-- The direct-summation loop over a leaf's bodies inside
`calculate_force_recursive`: every body whose entity differs from the
query body's contributes a pairwise kernel term. -/
def leafForceSum (sqrtFn : α → α) (minDistSq maxForce : α)
    (body : OctreeBody α) (g : α) (others : List (OctreeBody α)) : Vec3 α :=
  others.foldl
    (fun acc other =>
      if other.entity ≠ body.entity then
        acc + calculateForceFromPoint sqrtFn minDistSq maxForce
          body.position body.mass other.position other.mass g
      else acc)
    0

/-- `OptimizedOctree::calculate_force_recursive`, with fuel (the Rust
recursion is bounded by tree depth; on reachable pools `pool.len` fuel is
always sufficient). -/
def calculateForceRecursive (sqrtFn : α → α) (theta minDistSq maxForce : α)
    (pool : OptimizedOctreeNodePool α) (fuel : ℕ) :
    OctreeBody α → ℕ → α → Vec3 α :=
  Nat.rec
    (motive := fun _ => OctreeBody α → ℕ → α → Vec3 α)
    (fun _ _ _ => 0)
    (fun _ recur body nodeIndex g =>
      match pool.getNode nodeIndex with
      | none => 0
      | some node =>
        if node.isExternal then
          leafForceSum sqrtFn minDistSq maxForce body g node.bodies.toList
        else
          let distanceToCenter :=
            sqrtFn (body.position - node.hot_data.center_of_mass).lengthSq
          let nodeSize := sqrtFn node.hot_data.bounds_size.lengthSq
          if nodeSize / distanceToCenter < theta then
            calculateForceFromPoint sqrtFn minDistSq maxForce
              body.position body.mass node.hot_data.center_of_mass
              node.hot_data.total_mass g
          else
            (node.cold_data.children_indices.filterMap id).foldl
              (fun acc childIndex => acc + recur body childIndex g) 0)
    fuel

/-- `OptimizedOctree::calculate_force`: the returned force together with
the new value of the force-evaluation counter. -/
def calculateForce (sqrtFn : α → α) (oct : OptimizedOctree α)
    (body : OctreeBody α) (g : α) : Vec3 α × ℕ :=
  match oct.root_index with
  | some rootIndex =>
      (calculateForceRecursive sqrtFn oct.theta oct.min_distance_squared
        oct.max_force oct.node_pool oct.node_pool.len body rootIndex g,
       oct.force_calculation_count + 1)
  | none => (0, oct.force_calculation_count)

/-- `OptimizedOctree::collect_bounds_recursive`, accumulator-passing, with
fuel (`pool.len` is always sufficient on reachable pools). -/
def collectBoundsRecursive (pool : OptimizedOctreeNodePool α) (fuel : ℕ) :
    ℕ → ℕ → Option ℕ → List (Aabb3d α) → List (Aabb3d α) :=
  Nat.rec
    (motive := fun _ => ℕ → ℕ → Option ℕ → List (Aabb3d α) → List (Aabb3d α))
    (fun _ _ _ acc => acc)
    (fun _ recur nodeIndex currentDepth maxDepth acc =>
      match maxDepth with
      | some md =>
        if currentDepth > md then acc
        else
          match pool.getNode nodeIndex with
          | none => acc
          | some node =>
            let acc' := acc ++ [node.bounds]
            if node.isInternal then
              (node.cold_data.children_indices.filterMap id).foldl
                (fun a childIndex => recur childIndex (currentDepth + 1) maxDepth a)
                acc'
            else acc'
      | none =>
          match pool.getNode nodeIndex with
          | none => acc
          | some node =>
            let acc' := acc ++ [node.bounds]
            if node.isInternal then
              (node.cold_data.children_indices.filterMap id).foldl
                (fun a childIndex => recur childIndex (currentDepth + 1) maxDepth a)
                acc'
            else acc')
    fuel

/-- `OptimizedOctree::get_bounds` (the capacity estimate only reserves
memory and is omitted). -/
def getBounds (oct : OptimizedOctree α) (maxDepth : Option ℕ) : List (Aabb3d α) :=
  match oct.root_index with
  | some rootIndex =>
      collectBoundsRecursive oct.node_pool oct.node_pool.len rootIndex 0 maxDepth []
  | none => []

end OptimizedOctree

namespace OptimizedOctreeBodies

variable {α : Type} [LinearOrderedField α]

/-- The multiset of bodies stored in a block. -/
def toMultiset (bs : OptimizedOctreeBodies α) : Multiset (OctreeBody α) :=
  (bs.toList : Multiset (OctreeBody α))

end OptimizedOctreeBodies

/-- Mass of a multiset of bodies. -/
def massSum {α : Type} [LinearOrderedField α] (s : Multiset (OctreeBody α)) : α :=
  (s.map (fun b => b.mass)).sum

/-- Mass-weighted position sum of a multiset of bodies. -/
def weightedPosSum {α : Type} [LinearOrderedField α]
    (s : Multiset (OctreeBody α)) : Vec3 α :=
  (s.map (fun b => b.position.scale b.mass)).sum

namespace OptimizedOctree

variable {α : Type} [LinearOrderedField α]

/-- The multiset of bodies stored in the leaves of the subtree rooted at
`idx`, explored to depth `fuel`.  In every pool produced by `build` each
child index strictly exceeds its parent's, so any `fuel ≥ pool.len`
collects the whole subtree. -/
def leafBodies (pool : OptimizedOctreeNodePool α) (fuel : ℕ) :
    ℕ → Multiset (OctreeBody α) :=
  Nat.rec
    (motive := fun _ => ℕ → Multiset (OctreeBody α))
    (fun _ => 0)
    (fun _ recur idx =>
      match pool.getNode idx with
      | none => 0
      | some node =>
        match node.cold_data.node_type with
        | NodeType.External => node.bodies.toMultiset
        | NodeType.Internal =>
            ((node.cold_data.children_indices.filterMap id).map recur).sum)
    fuel

/-- Aggregate-data checker: at every node of the subtree rooted at `idx`
(explored to depth `fuel`), the stored `total_mass` equals the mass sum of
the bodies in the node's subtree, and the stored `center_of_mass` equals
the mass-weighted average position when that mass is positive and the zero
vector otherwise. -/
def aggOK (pool : OptimizedOctreeNodePool α) (fuel : ℕ) : ℕ → Bool :=
  Nat.rec
    (motive := fun _ => ℕ → Bool)
    (fun _ => true)
    (fun fuel recur idx =>
      match pool.getNode idx with
      | none => true
      | some node =>
        let s := leafBodies pool (fuel + 1) idx
        let m := massSum s
        decide (node.hot_data.total_mass = m) &&
        decide (node.hot_data.center_of_mass =
          (if m > 0 then (weightedPosSum s).divScalar m else 0)) &&
        (node.cold_data.children_indices.filterMap id).all recur)
    fuel

/-- Proof device for the build invariants: the subtree rooted at pool
index `c` lies inside the index region `[lo, hi)`, and in every pool
agreeing with `pool` on that region it collects exactly the bodies `S`
and satisfies the aggregate invariant, for every sufficient fuel. -/
def ChildOK (pool : OptimizedOctreeNodePool α) (lo hi c : ℕ)
    (S : Multiset (OctreeBody α)) : Prop :=
  lo ≤ c ∧ c < hi ∧
  ∀ (P : OptimizedOctreeNodePool α),
    (∀ k, lo ≤ k → k < hi → P.getNode k = pool.getNode k) →
    ∀ F, hi - lo ≤ F →
      leafBodies P F c = S ∧ aggOK P F c = true

/-- Proof device: the pool state after one non-empty iteration of the
child-creation loop allocates `childNode` (with an empty free list, an
allocation appends at index `next_index`) and links it into slot `i` of
the parent.  -/
def poolAfterChild (pool : OptimizedOctreeNodePool α) (parentIdx i : ℕ)
    (childNode : OptimizedOctreeNode α) : OptimizedOctreeNodePool α :=
  let pool₁ : OptimizedOctreeNodePool α :=
    ⟨pool.nodes ++ [childNode], [], pool.next_index + 1⟩
  match pool₁.getNode parentIdx with
  | some pn => pool₁.setNode parentIdx (pn.setChildIndex i (some pool.next_index))
  | none => pool₁

/-- The induction statement for `buildRecursive`: called on a fresh
internal node at `idx` in a pool with an empty free list, a successful
run extends the pool, rewrites only `idx` among the old nodes, keeps the
node's bounds, and produces a subtree at `idx` that collects exactly the
input bodies and satisfies the aggregate invariant — in every pool that
agrees with the result on `idx` and on the freshly allocated region. -/
def BuildRecSpec (lt fuel : ℕ) : Prop :=
  ∀ (pool : OptimizedOctreeNodePool α) (idx : ℕ) (B : Aabb3d α)
    (bodies : List (OctreeBody α)) (pool' : OptimizedOctreeNodePool α),
    buildRecursive lt fuel pool idx bodies = some pool' →
    pool.free_indices = [] →
    pool.next_index = pool.nodes.length →
    pool.getNode idx = some (OptimizedOctreeNode.newInternal B 0 0) →
    lt < bodies.length →
    pool'.free_indices = [] ∧
    pool'.next_index = pool'.nodes.length ∧
    pool.nodes.length ≤ pool'.nodes.length ∧
    (∀ k, k < pool.nodes.length → k ≠ idx →
      pool'.getNode k = pool.getNode k) ∧
    (∃ n', pool'.getNode idx = some n' ∧
      n'.cold_data.bounds = B ∧ n'.cold_data.node_type = NodeType.Internal) ∧
    (∀ P : OptimizedOctreeNodePool α,
      P.getNode idx = pool'.getNode idx →
      (∀ k, pool.nodes.length ≤ k → k < pool'.nodes.length →
        P.getNode k = pool'.getNode k) →
      ∀ F, pool'.nodes.length - idx ≤ F →
        leafBodies P F idx = (bodies : Multiset (OctreeBody α)) ∧
        aggOK P F idx = true)

end OptimizedOctree

/-- Modelled from the spec: the mass-weighted average position of a list
of bodies, `Σ (mass · position) / Σ mass` — the quantity the specification
says `center_of_mass` reports. -/
def specMassWeightedAverage {α : Type} [LinearOrderedField α]
    (bodies : List (OctreeBody α)) : Vec3 α :=
  ((bodies.map (fun (b : OctreeBody α) => b.position.scale b.mass)).foldl
    (fun a p => a + p) 0).divScalar
    ((bodies.map (fun (b : OctreeBody α) => b.mass)).sum)

/-- Euclidean norm of a real vector. -/
noncomputable def Vec3.norm (v : Vec3 ℝ) : ℝ := Real.sqrt v.lengthSq

/-- Modelled from the spec: the pairwise force kernel as §4.4 states it,
`force = normalize(direction) * forceMagnitude` with
`normalize(direction) = direction / |direction|`. -/
noncomputable def specKernelForce (minDist maxForce : ℝ) (queryPos : Vec3 ℝ)
    (queryMass : ℝ) (sourcePos : Vec3 ℝ) (sourceMass g : ℝ) : Vec3 ℝ :=
  let direction := sourcePos - queryPos
  let distanceSquared := max direction.lengthSq (minDist * minDist)
  let forceMagnitude := min (g * queryMass * sourceMass / distanceSquared) maxForce
  (direction.divScalar direction.norm).scale forceMagnitude

/-- Concrete sample octree (θ = 1, min_distance = 1, max_force = 1) used by
witness statements. -/
def sampleOct : OptimizedOctree ℚ := OptimizedOctree.new 1 1 1

/-- Concrete sample bodies used by witness statements. -/
def sBody0 : OctreeBody ℚ := ⟨⟨0, 0, 0⟩, 0, 1000⟩

def sBody1 : OctreeBody ℚ := ⟨⟨10, 0, 0⟩, 1, 1000⟩

def sBody2 : OctreeBody ℚ := ⟨⟨1, 2, 3⟩, 2, 5⟩

def sBody3 : OctreeBody ℚ := ⟨⟨-1, 4, 0⟩, 3, 7⟩

def sBody4 : OctreeBody ℚ := ⟨⟨3, 3, 3⟩, 4, 2⟩

def sBody5 : OctreeBody ℚ := ⟨⟨0, 0, 9⟩, 5, 3⟩

/-- A body with negative mass, exercising the aggregate rules. -/
def negBody : OctreeBody ℚ := ⟨⟨1, 0, 0⟩, 0, -1⟩

/-- A body placed so that the whole collection is coincident. -/
def coincBody : OctreeBody ℚ := ⟨⟨1, 1, 1⟩, 0, 1⟩

/-- A throwaway default node for `Option.getD` in witness statements. -/
def dummyNode : OptimizedOctreeNode ℚ :=
  OptimizedOctreeNode.newExternal ⟨⟨0, 0, 0⟩, ⟨0, 0, 0⟩⟩

/-- The octree built from the single body `sBody0`. -/
def builtSingle : OptimizedOctree ℚ :=
  (OptimizedOctree.build 1 sampleOct [sBody0]).getD sampleOct

/-- The octree built from six sample bodies (more than the leaf threshold,
so the root is internal). -/
def builtSix : OptimizedOctree ℚ :=
  (OptimizedOctree.build 10 sampleOct
    [sBody0, sBody1, sBody2, sBody3, sBody4, sBody5]).getD sampleOct

namespace Vec3

variable {α : Type} [LinearOrderedField α]

@[simp] theorem add_x (a b : Vec3 α) : (a + b).x = a.x + b.x := rfl

@[simp] theorem add_y (a b : Vec3 α) : (a + b).y = a.y + b.y := rfl

@[simp] theorem add_z (a b : Vec3 α) : (a + b).z = a.z + b.z := rfl

@[simp] theorem zero_x : (0 : Vec3 α).x = 0 := rfl

@[simp] theorem zero_y : (0 : Vec3 α).y = 0 := rfl

@[simp] theorem zero_z : (0 : Vec3 α).z = 0 := rfl

/-- Extensionality for `Vec3`. -/
theorem ext3 {a b : Vec3 α} (hx : a.x = b.x) (hy : a.y = b.y)
    (hz : a.z = b.z) : a = b := by
  cases a; cases b; simp_all

@[simp] theorem zero_def : (0 : Vec3 α) = ⟨0, 0, 0⟩ := rfl

@[simp] theorem add_def (a b : Vec3 α) :
    a + b = ⟨a.x + b.x, a.y + b.y, a.z + b.z⟩ := rfl

@[simp] theorem sub_def (a b : Vec3 α) :
    a - b = ⟨a.x - b.x, a.y - b.y, a.z - b.z⟩ := rfl

end Vec3

namespace OptimizedOctree

variable {α : Type} [LinearOrderedField α]

theorem buildRecursive_zero (lt : ℕ) (pool : OptimizedOctreeNodePool α)
    (idx : ℕ) (bodies : List (OctreeBody α)) :
    buildRecursive lt 0 pool idx bodies = none := rfl

theorem buildRecursive_succ (lt fuel : ℕ) (pool : OptimizedOctreeNodePool α)
    (idx : ℕ) (bodies : List (OctreeBody α)) :
    buildRecursive lt (fuel + 1) pool idx bodies =
      (if bodies.length ≤ lt then
        some (match pool.getNode idx with
          | some node =>
              pool.setNode idx
                (bodies.foldl (fun n b => n.addBody b.entity b.position b.mass)
                  { node with cold_data :=
                      { node.cold_data with node_type := NodeType.External } })
          | none => pool)
      else
        match pool.getNode idx with
        | none => some pool
        | some node =>
          let bounds := node.bounds
          let childBounds := bounds.subdivideIntoChildren
          let entries := (List.range 8).map (fun i =>
            (i, childBounds.getD i ⟨0, 0⟩, distribute bounds bodies i))
          match buildChildrenLoop (buildRecursive lt fuel) lt idx entries pool 0 0 0 with
          | none => none
          | some (pool', m, w, c) =>
            some (match pool'.getNode idx with
              | some pn =>
                  pool'.setNode idx
                    (pn.updateInternalData
                      (if m > 0 then w.divScalar m else 0) m c)
              | none => pool')) := rfl

theorem buildChildrenLoop_nil
    (recur : OptimizedOctreeNodePool α → ℕ → List (OctreeBody α) →
      Option (OptimizedOctreeNodePool α))
    (lt parentIdx : ℕ) (pool : OptimizedOctreeNodePool α) (m : α) (w : Vec3 α)
    (c : ℕ) :
    buildChildrenLoop recur lt parentIdx [] pool m w c = some (pool, m, w, c) :=
  rfl

theorem buildChildrenLoop_cons_empty
    (recur : OptimizedOctreeNodePool α → ℕ → List (OctreeBody α) →
      Option (OptimizedOctreeNodePool α))
    (lt parentIdx i : ℕ) (cb : Aabb3d α)
    (rest : List (ℕ × Aabb3d α × List (OctreeBody α)))
    (pool : OptimizedOctreeNodePool α) (m : α) (w : Vec3 α) (c : ℕ) :
    buildChildrenLoop recur lt parentIdx ((i, cb, []) :: rest) pool m w c =
      buildChildrenLoop recur lt parentIdx rest pool m w c := rfl

theorem buildChildrenLoop_cons_ne
    (recur : OptimizedOctreeNodePool α → ℕ → List (OctreeBody α) →
      Option (OptimizedOctreeNodePool α))
    (lt parentIdx i : ℕ) (cb : Aabb3d α) (bs : List (OctreeBody α))
    (rest : List (ℕ × Aabb3d α × List (OctreeBody α)))
    (pool : OptimizedOctreeNodePool α) (m : α) (w : Vec3 α) (c : ℕ)
    (hne : bs.isEmpty = false) :
    buildChildrenLoop recur lt parentIdx ((i, cb, bs) :: rest) pool m w c =
      (let isLeaf := bs.length ≤ lt
       let childNode :=
         if isLeaf then mkExternalNode cb bs
         else OptimizedOctreeNode.newInternal cb 0 0
       let acc' := accumulateBodies bs m w c
       let alloc := pool.allocateNode childNode
       let pool₂ :=
         match alloc.1.getNode parentIdx with
         | some pn => alloc.1.setNode parentIdx (pn.setChildIndex i (some alloc.2))
         | none => alloc.1
       if isLeaf then
         buildChildrenLoop recur lt parentIdx rest pool₂ acc'.1 acc'.2.1 acc'.2.2
       else
         match recur pool₂ alloc.2 bs with
         | none => none
         | some pool₃ =>
           buildChildrenLoop recur lt parentIdx rest pool₃ acc'.1 acc'.2.1
             acc'.2.2) := by
  show (if bs.isEmpty then buildChildrenLoop recur lt parentIdx rest pool m w c
    else _) = _
  rw [hne]
  rfl

theorem calculateForceRecursive_succ (sqrtFn : α → α) (theta minDistSq maxForce : α)
    (pool : OptimizedOctreeNodePool α) (fuel : ℕ) (body : OctreeBody α)
    (nodeIndex : ℕ) (g : α) :
    calculateForceRecursive sqrtFn theta minDistSq maxForce pool (fuel + 1)
      body nodeIndex g =
      (match pool.getNode nodeIndex with
      | none => 0
      | some node =>
        if node.isExternal then
          leafForceSum sqrtFn minDistSq maxForce body g node.bodies.toList
        else
          let distanceToCenter :=
            sqrtFn (body.position - node.hot_data.center_of_mass).lengthSq
          let nodeSize := sqrtFn node.hot_data.bounds_size.lengthSq
          if nodeSize / distanceToCenter < theta then
            calculateForceFromPoint sqrtFn minDistSq maxForce
              body.position body.mass node.hot_data.center_of_mass
              node.hot_data.total_mass g
          else
            (node.cold_data.children_indices.filterMap id).foldl
              (fun acc childIndex =>
                acc + calculateForceRecursive sqrtFn theta minDistSq maxForce
                  pool fuel body childIndex g) 0) := rfl

theorem leafBodies_succ (pool : OptimizedOctreeNodePool α) (fuel idx : ℕ) :
    leafBodies pool (fuel + 1) idx =
      (match pool.getNode idx with
      | none => 0
      | some node =>
        match node.cold_data.node_type with
        | NodeType.External => node.bodies.toMultiset
        | NodeType.Internal =>
            ((node.cold_data.children_indices.filterMap id).map
              (leafBodies pool fuel)).sum) := rfl

theorem aggOK_succ (pool : OptimizedOctreeNodePool α) (fuel idx : ℕ) :
    aggOK pool (fuel + 1) idx =
      (match pool.getNode idx with
      | none => true
      | some node =>
        let s := leafBodies pool (fuel + 1) idx
        let m := massSum s
        decide (node.hot_data.total_mass = m) &&
        decide (node.hot_data.center_of_mass =
          (if m > 0 then (weightedPosSum s).divScalar m else 0)) &&
        (node.cold_data.children_indices.filterMap id).all (aggOK pool fuel)) := rfl

theorem collectBoundsRecursive_succ (pool : OptimizedOctreeNodePool α)
    (fuel nodeIndex currentDepth : ℕ) (maxDepth : Option ℕ)
    (acc : List (Aabb3d α)) :
    collectBoundsRecursive pool (fuel + 1) nodeIndex currentDepth maxDepth acc =
      (match maxDepth with
      | some md =>
        if currentDepth > md then acc
        else
          match pool.getNode nodeIndex with
          | none => acc
          | some node =>
            let acc' := acc ++ [node.bounds]
            if node.isInternal then
              (node.cold_data.children_indices.filterMap id).foldl
                (fun a childIndex =>
                  collectBoundsRecursive pool fuel childIndex (currentDepth + 1)
                    maxDepth a) acc'
            else acc'
      | none =>
          match pool.getNode nodeIndex with
          | none => acc
          | some node =>
            let acc' := acc ++ [node.bounds]
            if node.isInternal then
              (node.cold_data.children_indices.filterMap id).foldl
                (fun a childIndex =>
                  collectBoundsRecursive pool fuel childIndex (currentDepth + 1)
                    maxDepth a) acc'
            else acc') := rfl

end OptimizedOctree

section ClaimTheorems

open OptimizedOctree

variable {α : Type} [LinearOrderedField α]

/-- C10.  Out-of-range deallocation is a no-op: for every pool state and
every index at or beyond the number of stored nodes, `deallocate_node`
returns the pool completely unchanged — node storage, free list, and
next-index counter — and no error is raised (the function is total). -/
theorem deallocate_out_of_range_noop (pool : OptimizedOctreeNodePool α)
    (index : ℕ) (h : pool.nodes.length ≤ index) :
    pool.deallocateNode index = pool := by
  unfold OptimizedOctreeNodePool.deallocateNode
  rw [if_neg (by omega)]

/-- Witness for C10 at a concrete pool and index. -/
theorem deallocate_out_of_range_noop_witness :
    (OptimizedOctreeNodePool.new (α := ℚ)).nodes.length ≤ 3 ∧
    (OptimizedOctreeNodePool.new (α := ℚ)).deallocateNode 3 =
      OptimizedOctreeNodePool.new :=
  ⟨by decide, deallocate_out_of_range_noop OptimizedOctreeNodePool.new 3 (by decide)⟩

/-- C4, counterexample: on the empty tree (fresh octree, `root_index`
absent) a top-level `calculate_force` call leaves the force-evaluation
counter unchanged at 0 instead of incrementing it to 1, contradicting the
claim that every top-level call increments it by exactly one for every
tree state including the empty tree. -/
theorem force_counter_empty_tree_cex :
    (calculateForce id sampleOct sBody0 1).2 = 0 ∧
    sampleOct.force_calculation_count = 0 ∧
    (calculateForce id sampleOct sBody0 1).2 ≠
      sampleOct.force_calculation_count + 1 := by
  refine ⟨rfl, rfl, ?_⟩; decide

/-- C4, amended.  Every top-level call to `calculate_force` increments the
force-evaluation counter by exactly one when the tree has a root, and
leaves it unchanged when the tree is empty — in either case independently
of how many pairwise or approximated contributions were summed
internally (the recursive traversal never touches the counter). -/
theorem force_counter_increment (sqrtFn : α → α) (oct : OptimizedOctree α)
    (body : OctreeBody α) (g : α) :
    (calculateForce sqrtFn oct body g).2 =
      oct.force_calculation_count + (if oct.root_index.isSome then 1 else 0) := by
  unfold calculateForce
  cases oct.root_index <;> simp

/-- C7.  Building from the empty body collection always succeeds, leaves
the root absent, and every subsequent force query on the resulting octree
returns the zero vector (and never fails: the model functions are total). -/
theorem build_empty_policy (fuel : ℕ) (oct : OptimizedOctree α) :
    (∃ oct', build fuel oct [] = some oct') ∧
    ∀ (oct' : OptimizedOctree α) (sqrtFn : α → α) (body : OctreeBody α) (g : α),
      build fuel oct [] = some oct' →
      oct'.root_index = none ∧ (calculateForce sqrtFn oct' body g).1 = 0 := by
  refine ⟨⟨_, rfl⟩, ?_⟩
  intro oct' sqrtFn body g h
  have hx : build fuel oct [] =
      some { afterDealloc oct with root_index := none } := rfl
  rw [hx, Option.some.injEq] at h
  subst h
  exact ⟨rfl, rfl⟩

/-- Witness for C7 at a concrete octree. -/
theorem build_empty_policy_witness :
    ((build 5 sampleOct []).map (fun o => o.root_index) = some none) ∧
    ((build 5 sampleOct []).map
      (fun o => (calculateForce id o sBody0 1).1) = some 0) := by
  obtain ⟨he, hall⟩ := build_empty_policy 5 sampleOct
  obtain ⟨oct', h⟩ := he
  obtain ⟨h1, h2⟩ := hall oct' id sBody0 1 h
  rw [h]
  exact ⟨by simp [h1], by simp [h2]⟩

end ClaimTheorems

namespace OptimizedOctree

variable {α : Type} [LinearOrderedField α]

/-- At depth ≥ 1 with a depth limit of 0, the bounds collector returns its
accumulator unchanged, whatever the fuel. -/
theorem collectBounds_depth_limited (pool : OptimizedOctreeNodePool α)
    (fuel nodeIndex currentDepth : ℕ) (hd : 1 ≤ currentDepth)
    (acc : List (Aabb3d α)) :
    collectBoundsRecursive pool fuel nodeIndex currentDepth (some 0) acc = acc := by
  cases fuel with
  | zero => rfl
  | succ fuel =>
    rw [collectBoundsRecursive_succ]
    simp only
    rw [if_pos (by omega)]

theorem collectBounds_depth_limited_foldl (pool : OptimizedOctreeNodePool α)
    (fuel : ℕ) (l : List ℕ) (acc : List (Aabb3d α)) :
    l.foldl (fun a childIndex =>
      collectBoundsRecursive pool fuel childIndex 1 (some 0) a) acc = acc := by
  induction l generalizing acc with
  | nil => rfl
  | cons c rest ih =>
      rw [List.foldl_cons, collectBounds_depth_limited pool fuel c 1 le_rfl acc, ih]

end OptimizedOctree

section ClaimTheorems2

open OptimizedOctree

variable {α : Type} [LinearOrderedField α]

/-- C9, counterexample: on the empty tree (fresh octree, no root),
`get_bounds(Some(0))` returns the empty list — zero bounding volumes, not
exactly one — contradicting the claim that it always returns exactly one
for every octree state. -/
theorem get_bounds_empty_tree_cex :
    getBounds sampleOct (some 0) = [] ∧
    (getBounds sampleOct (some 0)).length ≠ 1 := by
  exact ⟨rfl, by decide⟩

/-- C9, amended.  Whenever the octree has a root (`root_index` present and
resolving to a node in the pool — true of every tree built from a
non-empty collection), `get_bounds(Some(0))` returns exactly one bounding
volume, namely the root node's bounds. -/
theorem get_bounds_depth_zero_root (oct : OptimizedOctree α) (r : ℕ)
    (node : OptimizedOctreeNode α) (hr : oct.root_index = some r)
    (hn : oct.node_pool.getNode r = some node) :
    getBounds oct (some 0) = [node.bounds] := by
  unfold getBounds
  rw [hr]
  have hlen : 0 < oct.node_pool.len := by
    have : r < oct.node_pool.nodes.length := by
      by_contra hcon
      have : oct.node_pool.nodes[r]? = none := by
        rw [List.getElem?_eq_none]; omega
      rw [OptimizedOctreeNodePool.getNode, this] at hn
      exact Option.noConfusion hn
    unfold OptimizedOctreeNodePool.len
    omega
  obtain ⟨fuel, hfuel⟩ : ∃ fuel, oct.node_pool.len = fuel + 1 :=
    ⟨oct.node_pool.len - 1, by omega⟩
  rw [hfuel]
  show collectBoundsRecursive oct.node_pool (fuel + 1) r 0 (some 0) [] =
    [node.bounds]
  rw [collectBoundsRecursive_succ]
  simp only [hn]
  rw [if_neg (by omega)]
  by_cases hint : node.isInternal
  · rw [if_pos hint]
    exact collectBounds_depth_limited_foldl _ _ _ _
  · rw [if_neg hint]
    rfl

end ClaimTheorems2

section ClaimTheorems3

open OptimizedOctree

variable {α : Type} [LinearOrderedField α]

/-- Witness for C9 at the tree built from one concrete body. -/
theorem get_bounds_depth_zero_root_witness :
    getBounds builtSingle (some 0) =
      [((builtSingle.node_pool.getNode 0).getD dummyNode).bounds] :=
  get_bounds_depth_zero_root builtSingle 0
    ((builtSingle.node_pool.getNode 0).getD dummyNode) rfl rfl

/-- Conversion of the bit-packed child index to an arithmetic sum. -/
theorem determineChildIndex_cases (p : Vec3 α) (b : Aabb3d α) :
    OptimizedOctree.determineChildIndex p b =
      (if b.center.x ≤ p.x then 1 else 0) +
      2 * (if b.center.y ≤ p.y then 1 else 0) +
      4 * (if b.center.z ≤ p.z then 1 else 0) := by
  unfold OptimizedOctree.determineChildIndex
  simp only [ge_iff_le]
  split_ifs <;> rfl

/-- C5.  For every position `p` inside a bounding volume `b` (componentwise
`b.min ≤ p ≤ b.max`), `determine_child_index` equals the 3-bit index
`(p.x ≥ c.x) | (p.y ≥ c.y) << 1 | (p.z ≥ c.z) << 2`; it is a total
deterministic function into `{0, …, 7}` (no gaps, no overlap in the
assignment: each point is assigned exactly this one octant); and the
selected element of `b.subdivide_into_children()` contains `p`. -/
theorem determine_child_index_octant_assignment (p : Vec3 α) (b : Aabb3d α)
    (hmin : Vec3.vle b.min p) (hmax : Vec3.vle p b.max) :
    determineChildIndex p b =
      ((if p.x ≥ b.center.x then 1 else 0) |||
       ((if p.y ≥ b.center.y then 1 else 0) <<< 1) |||
       ((if p.z ≥ b.center.z then 1 else 0) <<< 2)) ∧
    determineChildIndex p b < 8 ∧
    (b.subdivideIntoChildren.getD (determineChildIndex p b) b).containsPoint p := by
  obtain ⟨h1, h2, h3⟩ := hmin
  obtain ⟨h4, h5, h6⟩ := hmax
  refine ⟨rfl, ?_⟩
  rcases le_or_lt b.center.x p.x with hx | hx <;>
    rcases le_or_lt b.center.y p.y with hy | hy <;>
      rcases le_or_lt b.center.z p.z with hz | hz
  · have hk : determineChildIndex p b = 7 := by
      rw [determineChildIndex_cases, if_pos hx, if_pos hy, if_pos hz]
    rw [hk]
    refine ⟨by norm_num, ?_⟩
    show Aabb3d.containsPoint ⟨b.center, b.max⟩ p
    exact ⟨⟨hx, hy, hz⟩, h4, h5, h6⟩
  · have hk : determineChildIndex p b = 3 := by
      rw [determineChildIndex_cases, if_pos hx, if_pos hy,
        if_neg (not_le.mpr hz)]
    rw [hk]
    refine ⟨by norm_num, ?_⟩
    show Aabb3d.containsPoint
      ⟨⟨b.center.x, b.center.y, b.min.z⟩, ⟨b.max.x, b.max.y, b.center.z⟩⟩ p
    exact ⟨⟨hx, hy, h3⟩, h4, h5, hz.le⟩
  · have hk : determineChildIndex p b = 5 := by
      rw [determineChildIndex_cases, if_pos hx, if_neg (not_le.mpr hy),
        if_pos hz]
    rw [hk]
    refine ⟨by norm_num, ?_⟩
    show Aabb3d.containsPoint
      ⟨⟨b.center.x, b.min.y, b.center.z⟩, ⟨b.max.x, b.center.y, b.max.z⟩⟩ p
    exact ⟨⟨hx, h2, hz⟩, h4, hy.le, h6⟩
  · have hk : determineChildIndex p b = 1 := by
      rw [determineChildIndex_cases, if_pos hx, if_neg (not_le.mpr hy),
        if_neg (not_le.mpr hz)]
    rw [hk]
    refine ⟨by norm_num, ?_⟩
    show Aabb3d.containsPoint
      ⟨⟨b.center.x, b.min.y, b.min.z⟩, ⟨b.max.x, b.center.y, b.center.z⟩⟩ p
    exact ⟨⟨hx, h2, h3⟩, h4, hy.le, hz.le⟩
  · have hk : determineChildIndex p b = 6 := by
      rw [determineChildIndex_cases, if_neg (not_le.mpr hx), if_pos hy,
        if_pos hz]
    rw [hk]
    refine ⟨by norm_num, ?_⟩
    show Aabb3d.containsPoint
      ⟨⟨b.min.x, b.center.y, b.center.z⟩, ⟨b.center.x, b.max.y, b.max.z⟩⟩ p
    exact ⟨⟨h1, hy, hz⟩, hx.le, h5, h6⟩
  · have hk : determineChildIndex p b = 2 := by
      rw [determineChildIndex_cases, if_neg (not_le.mpr hx), if_pos hy,
        if_neg (not_le.mpr hz)]
    rw [hk]
    refine ⟨by norm_num, ?_⟩
    show Aabb3d.containsPoint
      ⟨⟨b.min.x, b.center.y, b.min.z⟩, ⟨b.center.x, b.max.y, b.center.z⟩⟩ p
    exact ⟨⟨h1, hy, h3⟩, hx.le, h5, hz.le⟩
  · have hk : determineChildIndex p b = 4 := by
      rw [determineChildIndex_cases, if_neg (not_le.mpr hx),
        if_neg (not_le.mpr hy), if_pos hz]
    rw [hk]
    refine ⟨by norm_num, ?_⟩
    show Aabb3d.containsPoint
      ⟨⟨b.min.x, b.min.y, b.center.z⟩, ⟨b.center.x, b.center.y, b.max.z⟩⟩ p
    exact ⟨⟨h1, h2, hz⟩, hx.le, hy.le, h6⟩
  · have hk : determineChildIndex p b = 0 := by
      rw [determineChildIndex_cases, if_neg (not_le.mpr hx),
        if_neg (not_le.mpr hy), if_neg (not_le.mpr hz)]
    rw [hk]
    refine ⟨by norm_num, ?_⟩
    show Aabb3d.containsPoint ⟨b.min, b.center⟩ p
    exact ⟨⟨h1, h2, h3⟩, hx.le, hy.le, hz.le⟩

end ClaimTheorems3

section ClaimTheorems4

open OptimizedOctree

variable {α : Type} [LinearOrderedField α]

/-- Witness for C5 at a concrete point and box. -/
theorem determine_child_index_octant_assignment_witness :
    (determineChildIndex (⟨1, 2, 3⟩ : Vec3 ℚ) ⟨⟨0, 0, 0⟩, ⟨4, 4, 4⟩⟩ =
      ((if (⟨1, 2, 3⟩ : Vec3 ℚ).x ≥ (⟨⟨0, 0, 0⟩, ⟨4, 4, 4⟩⟩ : Aabb3d ℚ).center.x
          then 1 else 0) |||
       ((if (⟨1, 2, 3⟩ : Vec3 ℚ).y ≥ (⟨⟨0, 0, 0⟩, ⟨4, 4, 4⟩⟩ : Aabb3d ℚ).center.y
          then 1 else 0) <<< 1) |||
       ((if (⟨1, 2, 3⟩ : Vec3 ℚ).z ≥ (⟨⟨0, 0, 0⟩, ⟨4, 4, 4⟩⟩ : Aabb3d ℚ).center.z
          then 1 else 0) <<< 2))) ∧
    determineChildIndex (⟨1, 2, 3⟩ : Vec3 ℚ) ⟨⟨0, 0, 0⟩, ⟨4, 4, 4⟩⟩ < 8 ∧
    ((⟨⟨0, 0, 0⟩, ⟨4, 4, 4⟩⟩ : Aabb3d ℚ).subdivideIntoChildren.getD
      (determineChildIndex (⟨1, 2, 3⟩ : Vec3 ℚ) ⟨⟨0, 0, 0⟩, ⟨4, 4, 4⟩⟩)
      ⟨⟨0, 0, 0⟩, ⟨4, 4, 4⟩⟩).containsPoint ⟨1, 2, 3⟩ :=
  determine_child_index_octant_assignment ⟨1, 2, 3⟩ ⟨⟨0, 0, 0⟩, ⟨4, 4, 4⟩⟩
    ⟨by norm_num, by norm_num, by norm_num⟩
    ⟨by norm_num, by norm_num, by norm_num⟩

end ClaimTheorems4

namespace OptimizedOctree

variable {α : Type} [LinearOrderedField α]

/-- A fold of `add_body` over a body list leaves the cold data's bounds,
node type and children unchanged and appends the bodies' components to the
struct-of-arrays block. -/
theorem foldl_addBody_characterization (bs : List (OctreeBody α))
    (n : OptimizedOctreeNode α) :
    (bs.foldl (fun n b => n.addBody b.entity b.position b.mass) n).bodies =
      ⟨n.bodies.entities ++ bs.map (fun b => b.entity),
       n.bodies.positions ++ bs.map (fun b => b.position),
       n.bodies.masses ++ bs.map (fun b => b.mass)⟩ ∧
    (bs.foldl (fun n b => n.addBody b.entity b.position b.mass) n).cold_data.bounds =
      n.cold_data.bounds ∧
    (bs.foldl (fun n b => n.addBody b.entity b.position b.mass)
      n).cold_data.node_type = n.cold_data.node_type ∧
    (bs.foldl (fun n b => n.addBody b.entity b.position b.mass)
      n).cold_data.children_indices = n.cold_data.children_indices := by
  induction bs generalizing n with
  | nil => simp
  | cons b rest ih =>
    rw [List.foldl_cons]
    obtain ⟨i1, i2, i3, i4⟩ := ih (n.addBody b.entity b.position b.mass)
    refine ⟨?_, ?_, ?_, ?_⟩
    · rw [i1]
      simp [OptimizedOctreeNode.addBody, OptimizedOctreeBodies.push]
    · rw [i2]; rfl
    · rw [i3]; rfl
    · rw [i4]; rfl

/-- The body list of a struct-of-arrays block assembled from three
parallel `map`s of one list is that list. -/
theorem toList_of_maps (bs : List (OctreeBody α)) :
    (⟨bs.map (fun b => b.entity), bs.map (fun b => b.position),
      bs.map (fun b => b.mass)⟩ : OptimizedOctreeBodies α).toList = bs := by
  unfold OptimizedOctreeBodies.toList OptimizedOctreeBodies.len
  apply List.ext_getElem
  · simp
  · intro i hi hlen
    simp only [List.getElem_map, List.getElem_range, List.length_map,
      List.length_range] at hi hlen ⊢
    have hib : i < bs.length := by simpa using hi
    rw [List.getD_eq_getElem, List.getD_eq_getElem, List.getD_eq_getElem] <;>
      simp [hib]

/-- `mkExternalNode` produces an external node over the given bounds whose
stored body list is exactly the given list. -/
theorem mkExternalNode_spec (bounds : Aabb3d α) (bs : List (OctreeBody α)) :
    (mkExternalNode bounds bs).bodies.toList = bs ∧
    (mkExternalNode bounds bs).cold_data.node_type = NodeType.External ∧
    (mkExternalNode bounds bs).cold_data.bounds = bounds ∧
    (mkExternalNode bounds bs).cold_data.children_indices =
      List.replicate 8 none := by
  obtain ⟨h1, h2, h3, h4⟩ := foldl_addBody_characterization bs
    (OptimizedOctreeNode.newExternal bounds)
  unfold mkExternalNode
  rw [h1, h2, h3, h4]
  refine ⟨?_, rfl, rfl, rfl⟩
  show (⟨bs.map _, bs.map _, bs.map _⟩ : OptimizedOctreeBodies α).toList = bs
  exact toList_of_maps bs

end OptimizedOctree

namespace OptimizedOctree

variable {α : Type} [LinearOrderedField α]

theorem isExternal_iff (n : OptimizedOctreeNode α) :
    n.isExternal = true ↔ n.cold_data.node_type = NodeType.External := by
  simp [OptimizedOctreeNode.isExternal]

/-- Bodies that share the query body's identity contribute nothing to a
leaf's direct force sum: filtering them out does not change the result
(exclusion is by identity, not by position). -/
theorem leafForceSum_filter_self (sqrtFn : α → α) (minDistSq maxForce : α)
    (body : OctreeBody α) (g : α) (others : List (OctreeBody α)) :
    leafForceSum sqrtFn minDistSq maxForce body g others =
      leafForceSum sqrtFn minDistSq maxForce body g
        (others.filter (fun o => o.entity ≠ body.entity)) := by
  unfold leafForceSum
  generalize (0 : Vec3 α) = acc
  induction others generalizing acc with
  | nil => rfl
  | cons o rest ih =>
    by_cases ho : o.entity = body.entity
    · rw [List.foldl_cons, if_neg (by simp [ho]),
        List.filter_cons_of_neg (by simp [ho])]
      exact ih acc
    · rw [List.foldl_cons, if_pos (by simpa using ho),
        List.filter_cons_of_pos (by simpa using ho), List.foldl_cons,
        if_pos (by simpa using ho)]
      exact ih _


theorem getNode_of_lt (p : OptimizedOctreeNodePool α) (j : ℕ)
    (h : j < p.nodes.length) : ∃ nd, p.getNode j = some nd :=
  ⟨p.nodes[j], List.getElem?_eq_getElem h⟩

@[simp] theorem setNode_length (p : OptimizedOctreeNodePool α) (i : ℕ)
    (x : OptimizedOctreeNode α) :
    (p.setNode i x).nodes.length = p.nodes.length := by
  simp [OptimizedOctreeNodePool.setNode]

/-- With `leaf_threshold = 0`, the child-creation loop diverges as soon as
one octant holds the single body `b`, provided the recursive call diverges
on singletons. -/
theorem buildChildrenLoop_lt0_none (b : OctreeBody α)
    (recur : OptimizedOctreeNodePool α → ℕ → List (OctreeBody α) →
      Option (OptimizedOctreeNodePool α))
    (parentIdx : ℕ)
    (hrec : ∀ (pool : OptimizedOctreeNodePool α) (idx : ℕ)
      (node : OptimizedOctreeNode α),
      pool.free_indices = [] → pool.next_index = pool.nodes.length →
      pool.getNode idx = some node → recur pool idx [b] = none) :
    ∀ (entries : List (ℕ × Aabb3d α × List (OctreeBody α)))
      (pool : OptimizedOctreeNodePool α) (m : α) (w : Vec3 α) (c : ℕ),
      pool.free_indices = [] →
      pool.next_index = pool.nodes.length →
      (∃ e ∈ entries, e.2.2 = [b]) →
      (∀ e ∈ entries, e.2.2 = [] ∨ e.2.2 = [b]) →
      buildChildrenLoop recur 0 parentIdx entries pool m w c = none := by
  intro entries
  induction entries with
  | nil =>
    intro pool m w c _ _ hex _
    obtain ⟨e, he, _⟩ := hex
    exact absurd he (List.not_mem_nil e)
  | cons entry rest ih =>
    obtain ⟨i, cb, bs⟩ := entry
    intro pool m w c hfree hnext hex hall
    rcases hall (i, cb, bs) (List.mem_cons_self _ _) with hbs | hbs
    · -- empty octant: the loop skips it
      simp only at hbs
      subst hbs
      rw [buildChildrenLoop_cons_empty]
      refine ih pool m w c hfree hnext ?_ ?_
      · obtain ⟨e, he, heb⟩ := hex
        rcases List.mem_cons.mp he with rfl | hmem
        · exact absurd heb (by simp)
        · exact ⟨e, hmem, heb⟩
      · intro e he
        exact hall e (List.mem_cons_of_mem _ he)
    · -- the singleton octant: recursion on one body with threshold 0
      simp only at hbs
      subst hbs
      rw [buildChildrenLoop_cons_ne _ _ _ _ _ _ _ _ _ _ _
        (show ([b] : List (OctreeBody α)).isEmpty = false from rfl)]
      simp only [List.length_cons, List.length_nil, Nat.le_zero,
        OptimizedOctreeNodePool.allocateNode, hfree, if_neg (by omega : ¬ (0 + 1 = 0))]
      set childNode := OptimizedOctreeNode.newInternal cb (0 : Vec3 α) 0 with hchild
      set pool₁ : OptimizedOctreeNodePool α :=
        ⟨pool.nodes ++ [childNode], [], pool.next_index + 1⟩ with hpool₁
      have hidx : pool.next_index < pool₁.nodes.length := by
        simp [hpool₁]
        omega
      cases hp : pool₁.getNode parentIdx with
      | none =>
        simp only [hp]
        obtain ⟨nd, hnd⟩ := getNode_of_lt pool₁ pool.next_index hidx
        rw [hrec pool₁ pool.next_index nd rfl
          (by simp [hpool₁]; omega) hnd]
      | some pn =>
        simp only [hp]
        obtain ⟨nd, hnd⟩ := getNode_of_lt
          (pool₁.setNode parentIdx (pn.setChildIndex i (some pool.next_index)))
          pool.next_index (by rw [setNode_length]; exact hidx)
        rw [hrec _ pool.next_index nd rfl
          (by simp [OptimizedOctreeNodePool.setNode, hpool₁]; omega) hnd]

/-- With `leaf_threshold = 0`, `build_recursive` on a single body never
terminates, whatever the fuel: the singleton never meets the leaf test and
its octant child again holds exactly one body. -/
theorem buildRecursive_lt0_single_none (b : OctreeBody α) :
    ∀ (fuel : ℕ) (pool : OptimizedOctreeNodePool α) (idx : ℕ)
      (node : OptimizedOctreeNode α),
      pool.free_indices = [] →
      pool.next_index = pool.nodes.length →
      pool.getNode idx = some node →
      buildRecursive 0 fuel pool idx [b] = none := by
  intro fuel
  induction fuel with
  | zero => intro pool idx node _ _ _; rfl
  | succ fuel ih =>
    intro pool idx node hfree hnext hnode
    rw [buildRecursive_succ,
      if_neg (show ¬ (([b] : List (OctreeBody α)).length ≤ 0) from by simp)]
    rw [show pool.getNode idx = some node from hnode]
    simp only
    have hloop := buildChildrenLoop_lt0_none b (buildRecursive 0 fuel) idx
      (fun pool' idx' node' hf hn hg => ih pool' idx' node' hf hn hg)
      ((List.range 8).map (fun i =>
        (i, node.bounds.subdivideIntoChildren.getD i ⟨0, 0⟩,
          distribute node.bounds [b] i)))
      pool 0 0 0 hfree hnext ?_ ?_
    · rw [hloop]
    · -- the body's own octant index is among the eight entries
      have hlt : determineChildIndex b.position node.bounds < 8 := by
        rw [determineChildIndex_cases]
        split_ifs <;> norm_num
      refine ⟨(determineChildIndex b.position node.bounds,
        node.bounds.subdivideIntoChildren.getD
          (determineChildIndex b.position node.bounds) ⟨0, 0⟩,
        distribute node.bounds [b]
          (determineChildIndex b.position node.bounds)), ?_, ?_⟩
      · simp only [List.mem_map, List.mem_range]
        exact ⟨determineChildIndex b.position node.bounds, hlt, rfl⟩
      · show distribute node.bounds [b]
          (determineChildIndex b.position node.bounds) = [b]
        unfold distribute
        rw [if_pos rfl]
        rfl
    · -- every octant of a singleton holds either no body or the body itself
      intro e he
      simp only [List.mem_map, List.mem_range] at he
      obtain ⟨j, _, rfl⟩ := he
      show distribute node.bounds [b] j = [] ∨ distribute node.bounds [b] j = [b]
      unfold distribute
      by_cases hj : determineChildIndex b.position node.bounds = j
      · rw [if_pos hj]
        right
        rfl
      · rw [if_neg hj]
        left
        rfl

@[simp] theorem afterDealloc_leaf_threshold (oct : OptimizedOctree α) :
    (afterDealloc oct).leaf_threshold = oct.leaf_threshold := by
  unfold afterDealloc
  cases oct.root_index <;> rfl

@[simp] theorem afterDealloc_root_index (oct : OptimizedOctree α) :
    (afterDealloc oct).root_index = none := by
  unfold afterDealloc
  cases h : oct.root_index with
  | none => exact h
  | some r => rfl

/-- `build_recursive` on a freshly allocated root in an empty pool, with
threshold 0 and a single body, diverges. -/
theorem buildRecursive_lt0_fresh (b : OctreeBody α) (fuel : ℕ)
    (n : OptimizedOctreeNode α) :
    buildRecursive 0 fuel
      ((OptimizedOctreeNodePool.new (α := α)).allocateNode n).1
      ((OptimizedOctreeNodePool.new (α := α)).allocateNode n).2 [b] = none :=
  buildRecursive_lt0_single_none b fuel _ _ n rfl rfl rfl

/-- With `leaf_threshold = 0`, `build` on a single body diverges (returns
`none` for every fuel). -/
theorem build_lt0_single_none (oct : OptimizedOctree α)
    (h0 : oct.leaf_threshold = 0) (fuel : ℕ) (b : OctreeBody α) :
    build fuel oct [b] = none := by
  have hlt : (afterDealloc oct).leaf_threshold = 0 := by
    rw [afterDealloc_leaf_threshold, h0]
  unfold build
  simp only [hlt]
  rw [if_neg (show ¬ (([b] : List (OctreeBody α)).length ≤ 0) from by simp)]
  rw [buildRecursive_lt0_fresh b fuel _]

theorem build_cons_small (fuel : ℕ) (oct : OptimizedOctree α)
    (first : OctreeBody α) (rest : List (OctreeBody α))
    (h : (first :: rest).length ≤ oct.leaf_threshold) :
    build fuel oct (first :: rest) =
      some { afterDealloc oct with
        root_index := some 0
        node_pool :=
          ⟨[mkExternalNode (buildRootBounds first rest) (first :: rest)], [], 1⟩ } := by
  unfold build
  simp only [afterDealloc_leaf_threshold]
  rw [if_pos h]
  rfl

theorem calculateForce_some (sqrtFn : α → α) (oct : OptimizedOctree α)
    (body : OctreeBody α) (g : α) (r : ℕ) (h : oct.root_index = some r) :
    calculateForce sqrtFn oct body g =
      (calculateForceRecursive sqrtFn oct.theta oct.min_distance_squared
        oct.max_force oct.node_pool oct.node_pool.len body r g,
       oct.force_calculation_count + 1) := by
  unfold calculateForce
  rw [h]

end OptimizedOctree

section ClaimTheorems5

open OptimizedOctree

variable {α : Type} [LinearOrderedField α]

/-- C8.  Self-exclusion: a body never contributes force to itself, even
when co-located at zero distance.  For every tree built from a single
body, `calculate_force` on that body returns exactly the zero vector; and
in every leaf sum, filtering out the bodies sharing the query's identity
leaves the result unchanged (exclusion is by identity, not by position
equality). -/
theorem self_exclusion_zero_force (fuel : ℕ) (oct oct' : OptimizedOctree α)
    (b : OctreeBody α) (h : build fuel oct [b] = some oct') :
    (∀ (sqrtFn : α → α) (g : α), (calculateForce sqrtFn oct' b g).1 = 0) ∧
    (∀ (sqrtFn : α → α) (minDistSq maxForce g : α)
      (others : List (OctreeBody α)),
      leafForceSum sqrtFn minDistSq maxForce b g others =
        leafForceSum sqrtFn minDistSq maxForce b g
          (others.filter (fun o => o.entity ≠ b.entity))) := by
  refine ⟨?_, fun sqrtFn mdsq mf g others =>
    leafForceSum_filter_self sqrtFn mdsq mf b g others⟩
  intro sqrtFn g
  by_cases h0 : oct.leaf_threshold = 0
  · rw [build_lt0_single_none oct h0 fuel b] at h
    exact Option.noConfusion h
  · have hle : ([b] : List (OctreeBody α)).length ≤ oct.leaf_threshold := by
      simp only [List.length_cons, List.length_nil]
      omega
    rw [build_cons_small fuel oct b [] hle, Option.some.injEq] at h
    subst h
    rw [calculateForce_some sqrtFn _ b g 0 rfl]
    simp only
    rw [show (⟨[mkExternalNode (buildRootBounds b []) [b]], [], 1⟩ :
        OptimizedOctreeNodePool α).len = 0 + 1 from rfl]
    rw [calculateForceRecursive_succ]
    rw [show (⟨[mkExternalNode (buildRootBounds b []) [b]], [], 1⟩ :
        OptimizedOctreeNodePool α).getNode 0 =
      some (mkExternalNode (buildRootBounds b []) [b]) from rfl]
    simp only
    rw [if_pos ((isExternal_iff _).mpr (mkExternalNode_spec _ _).2.1)]
    rw [(mkExternalNode_spec (buildRootBounds b []) [b]).1]
    unfold leafForceSum
    rw [List.foldl_cons, if_neg (by simp), List.foldl_nil]

/-- Witness for C8 at a concrete single-body build. -/
theorem self_exclusion_zero_force_witness :
    (∀ (sqrtFn : ℚ → ℚ) (g : ℚ),
      (calculateForce sqrtFn builtSingle sBody0 g).1 = 0) ∧
    (∀ (sqrtFn : ℚ → ℚ) (minDistSq maxForce g : ℚ)
      (others : List (OctreeBody ℚ)),
      leafForceSum sqrtFn minDistSq maxForce sBody0 g others =
        leafForceSum sqrtFn minDistSq maxForce sBody0 g
          (others.filter (fun o => o.entity ≠ sBody0.entity))) :=
  self_exclusion_zero_force 1 sampleOct builtSingle sBody0 rfl

end ClaimTheorems5

namespace Vec3

theorem lengthSq_nonneg (v : Vec3 ℝ) : 0 ≤ v.lengthSq := by
  unfold lengthSq
  have hx := mul_self_nonneg v.x
  have hy := mul_self_nonneg v.y
  have hz := mul_self_nonneg v.z
  linarith

end Vec3

section ClaimTheorems6

open OptimizedOctree

/-- C3, counterexample: with `min_distance = 2` (so cached
`min_distance_squared = 4`), `max_force = 100`, unit masses, `G = 1`,
query at the origin and source at `(1,0,0)`, the code kernel divides the
direction by the *clamped* distance (2), not by `|direction| = 1`.  The
returned vector is `(1/8, 0, 0)` while the spec formula
`normalize(direction) * forceMagnitude` gives `(1/4, 0, 0)`, and the
returned magnitude `1/8` differs from the clamped force magnitude `1/4`. -/
theorem force_kernel_normalization_cex :
    calculateForceFromPoint Real.sqrt 4 100 (⟨0, 0, 0⟩ : Vec3 ℝ) 1
      ⟨1, 0, 0⟩ 1 1 = ⟨1 / 8, 0, 0⟩ ∧
    specKernelForce 2 100 (⟨0, 0, 0⟩ : Vec3 ℝ) 1 ⟨1, 0, 0⟩ 1 1 =
      ⟨1 / 4, 0, 0⟩ ∧
    ((⟨1 / 8, 0, 0⟩ : Vec3 ℝ) ≠ ⟨1 / 4, 0, 0⟩) ∧
    Vec3.norm (⟨1 / 8, 0, 0⟩ : Vec3 ℝ) = 1 / 8 ∧
    min ((1 : ℝ) * 1 * 1 /
      max ((⟨1, 0, 0⟩ - ⟨0, 0, 0⟩ : Vec3 ℝ).lengthSq) 4) 100 = 1 / 4 := by
  have h4 : Real.sqrt 4 = 2 := by
    rw [show (4 : ℝ) = 2 ^ 2 by norm_num]
    exact Real.sqrt_sq (by norm_num)
  have hlen : ((⟨1, 0, 0⟩ - ⟨0, 0, 0⟩ : Vec3 ℝ)).lengthSq = 1 := by
    simp [Vec3.lengthSq]
  have hmax : max ((⟨1, 0, 0⟩ - ⟨0, 0, 0⟩ : Vec3 ℝ)).lengthSq (4 : ℝ) = 4 := by
    rw [hlen]
    exact max_eq_right (by norm_num)
  have hmin : min ((1 : ℝ) * 1 * 1 /
      max ((⟨1, 0, 0⟩ - ⟨0, 0, 0⟩ : Vec3 ℝ).lengthSq) 4) 100 = 1 / 4 := by
    rw [hmax]
    rw [min_eq_left (by norm_num)]
    norm_num
  refine ⟨?_, ?_, ?_, ?_, hmin⟩
  · unfold calculateForceFromPoint
    simp only [hmax, h4, hmin]
    apply Vec3.ext3 <;> simp [Vec3.divScalar, Vec3.scale] <;> norm_num
  · unfold specKernelForce
    have hn1 : Vec3.norm ((⟨1, 0, 0⟩ - ⟨0, 0, 0⟩ : Vec3 ℝ)) = 1 := by
      unfold Vec3.norm
      rw [hlen]
      exact Real.sqrt_one
    have h22 : (2 : ℝ) * 2 = 4 := by norm_num
    have hq : min ((1 : ℝ) * 1 * 1 / 4) 100 = 1 / 4 := by
      rw [min_eq_left (by norm_num)]
      norm_num
    simp only [h22, hmax, hn1, hq]
    apply Vec3.ext3 <;> simp [Vec3.divScalar, Vec3.scale]
  · intro hcon
    have := congrArg Vec3.x hcon
    norm_num at this
  · unfold Vec3.norm Vec3.lengthSq
    rw [show (1 / 8 : ℝ) * (1 / 8) + 0 * 0 + 0 * 0 = (1 / 8) ^ 2 by ring]
    exact Real.sqrt_sq (by norm_num)

end ClaimTheorems6

section ClaimTheorems7

open OptimizedOctree

/-- C3, amended.  The pairwise kernel normalizes the direction by the
*clamped* distance `sqrt(max(|direction|², min_distance²))`.  Whenever the
singularity clamp is inactive (`min_distance² ≤ |direction|²`) and the
direction is nonzero, the contribution equals the spec formula
`normalize(direction) * min(G·m₁·m₂ / distanceSquared, max_force)`, and
its magnitude is the absolute value of that clamped force magnitude.
(When the clamp is active the vector is additionally attenuated by the
factor `|direction| / min_distance`, as the counterexample shows.) -/
theorem force_kernel_clamped_formula (minDist maxForce : ℝ) (qp : Vec3 ℝ)
    (qm : ℝ) (sp : Vec3 ℝ) (sm g : ℝ)
    (hclamp : minDist * minDist ≤ (sp - qp).lengthSq)
    (hpos : 0 < (sp - qp).lengthSq) :
    calculateForceFromPoint Real.sqrt (minDist * minDist) maxForce qp qm
      sp sm g = specKernelForce minDist maxForce qp qm sp sm g ∧
    Vec3.norm (calculateForceFromPoint Real.sqrt (minDist * minDist)
      maxForce qp qm sp sm g) =
      |min (g * qm * sm / (sp - qp).lengthSq) maxForce| := by
  have hmax : max (sp - qp).lengthSq (minDist * minDist) = (sp - qp).lengthSq :=
    max_eq_left hclamp
  have hs : Real.sqrt (sp - qp).lengthSq * Real.sqrt (sp - qp).lengthSq =
      (sp - qp).lengthSq := Real.mul_self_sqrt hpos.le
  have hspos : 0 < Real.sqrt (sp - qp).lengthSq := Real.sqrt_pos.mpr hpos
  constructor
  · unfold calculateForceFromPoint specKernelForce Vec3.norm
    simp only [hmax]
  · unfold calculateForceFromPoint
    simp only [hmax]
    set d := sp - qp with hd
    set s := Real.sqrt d.lengthSq with hsdef
    set F := min (g * qm * sm / d.lengthSq) maxForce with hF
    unfold Vec3.norm
    have hsum : ((d.divScalar s).scale F).lengthSq = F * F := by
      unfold Vec3.lengthSq Vec3.divScalar Vec3.scale
      have hL : d.x * d.x + d.y * d.y + d.z * d.z = s * s := by
        rw [hs]
        rfl
      have hexp : d.x / s * F * (d.x / s * F) + d.y / s * F * (d.y / s * F) +
          d.z / s * F * (d.z / s * F) =
          (d.x * d.x + d.y * d.y + d.z * d.z) * (F * F) / (s * s) := by
        field_simp
        ring
      rw [hexp, hL, mul_comm (s * s) (F * F),
        mul_div_assoc, div_self (by positivity), mul_one]
    rw [hsum]
    exact Real.sqrt_mul_self_eq_abs F

/-- Witness for C3 (amended) at a concrete unclamped configuration. -/
theorem force_kernel_clamped_formula_witness :
    (calculateForceFromPoint Real.sqrt ((1 : ℝ) * 1) 100 (⟨0, 0, 0⟩ : Vec3 ℝ)
      1 ⟨2, 0, 0⟩ 1 1 = specKernelForce 1 100 ⟨0, 0, 0⟩ 1 ⟨2, 0, 0⟩ 1 1) ∧
    Vec3.norm (calculateForceFromPoint Real.sqrt ((1 : ℝ) * 1) 100
      (⟨0, 0, 0⟩ : Vec3 ℝ) 1 ⟨2, 0, 0⟩ 1 1) =
      |min ((1 : ℝ) * 1 * 1 /
        ((⟨2, 0, 0⟩ - ⟨0, 0, 0⟩ : Vec3 ℝ)).lengthSq) 100| :=
  force_kernel_clamped_formula 1 100 ⟨0, 0, 0⟩ 1 ⟨2, 0, 0⟩ 1 1
    (by norm_num [Vec3.lengthSq]) (by norm_num [Vec3.lengthSq])

end ClaimTheorems7

namespace OptimizedOctree

variable {α : Type} [LinearOrderedField α]

/-- Transport and widening for `ChildOK`: the property survives moving to
a pool that agrees on the region and enlarging the region. -/
theorem ChildOK.mono {pool pool₂ : OptimizedOctreeNodePool α}
    {lo hi c lo' hi' : ℕ} {S : Multiset (OctreeBody α)}
    (h : ChildOK pool lo hi c S) (hlo : lo' ≤ lo) (hhi : hi ≤ hi')
    (hagree : ∀ k, lo ≤ k → k < hi → pool₂.getNode k = pool.getNode k) :
    ChildOK pool₂ lo' hi' c S := by
  obtain ⟨h1, h2, h3⟩ := h
  refine ⟨le_trans hlo h1, lt_of_lt_of_le h2 hhi, ?_⟩
  intro P hP F hF
  refine h3 P ?_ F (by omega)
  intro k hk1 hk2
  rw [hP k (by omega) (by omega), hagree k hk1 hk2]

theorem filterMap_id_replicate_none :
    (List.replicate 8 (none : Option ℕ)).filterMap id = [] := rfl

/-- Setting an empty child slot adds exactly that child to the populated
children, as multisets. -/
theorem filterMap_id_set_none (ch : List (Option ℕ)) :
    ∀ (i c : ℕ), ch[i]? = some none →
    (((ch.set i (some c)).filterMap id : List ℕ) : Multiset ℕ) =
      c ::ₘ ((ch.filterMap id : List ℕ) : Multiset ℕ) := by
  induction ch with
  | nil => intro i c h; simp at h
  | cons o rest ih =>
    intro i c h
    cases i with
    | zero =>
      simp only [List.getElem?_cons_zero, Option.some.injEq] at h
      subst h
      simp
    | succ j =>
      simp only [List.getElem?_cons_succ] at h
      rw [List.set_cons_succ]
      cases o with
      | none =>
        rw [show ((none :: rest.set j (some c)).filterMap id : List ℕ) =
            (rest.set j (some c)).filterMap id from rfl,
          show ((none :: rest).filterMap id : List ℕ) =
            rest.filterMap id from rfl]
        exact ih j c h
      | some a =>
        rw [show ((some a :: rest.set j (some c)).filterMap id : List ℕ) =
            a :: (rest.set j (some c)).filterMap id from rfl,
          show ((some a :: rest).filterMap id : List ℕ) =
            a :: rest.filterMap id from rfl]
        rw [show ((a :: (rest.set j (some c)).filterMap id : List ℕ) :
            Multiset ℕ) = a ::ₘ (((rest.set j (some c)).filterMap id :
            List ℕ) : Multiset ℕ) from rfl]
        rw [ih j c h]
        rw [show (((a :: rest.filterMap id : List ℕ)) : Multiset ℕ) =
          a ::ₘ ((rest.filterMap id : List ℕ) : Multiset ℕ) from rfl]
        exact Multiset.cons_swap a c _

/-- `distribute` is the stable filter by octant index. -/
theorem distribute_eq_filter (bounds : Aabb3d α) (bodies : List (OctreeBody α))
    (i : ℕ) :
    distribute bounds bodies i =
      bodies.filter (fun b => determineChildIndex b.position bounds = i) := by
  induction bodies with
  | nil => rfl
  | cons b rest ih =>
    unfold distribute
    by_cases hb : determineChildIndex b.position bounds = i
    · rw [if_pos hb, List.filter_cons_of_pos (by simpa using hb), ih]
    · rw [if_neg hb, List.filter_cons_of_neg (by simpa using hb), ih]

theorem determineChildIndex_lt_8 (p : Vec3 α) (b : Aabb3d α) :
    determineChildIndex p b < 8 := by
  rw [determineChildIndex_cases]
  split_ifs <;> norm_num

/-- The eight octant lists partition the body list, as multisets. -/
theorem distribute_partition (bounds : Aabb3d α)
    (bodies : List (OctreeBody α)) :
    (((List.range 8).map (fun i =>
      ((distribute bounds bodies i : List (OctreeBody α)) :
        Multiset (OctreeBody α)))).sum : Multiset (OctreeBody α)) =
      (bodies : Multiset (OctreeBody α)) := by
  induction bodies with
  | nil =>
    simp [distribute]
  | cons b rest ih =>
    have hsplit : ∀ i : ℕ,
        ((distribute bounds (b :: rest) i : List (OctreeBody α)) :
          Multiset (OctreeBody α)) =
        (if determineChildIndex b.position bounds = i then {b} else 0) +
          ((distribute bounds rest i : List (OctreeBody α)) :
            Multiset (OctreeBody α)) := by
      intro i
      have hcons : distribute bounds (b :: rest) i =
          if determineChildIndex b.position bounds = i then
            b :: distribute bounds rest i
          else distribute bounds rest i := rfl
      rw [hcons]
      by_cases hb : determineChildIndex b.position bounds = i
      · rw [if_pos hb, if_pos hb]
        rw [show ((b :: distribute bounds rest i : List (OctreeBody α)) :
            Multiset (OctreeBody α)) =
          b ::ₘ ((distribute bounds rest i : List (OctreeBody α)) :
            Multiset (OctreeBody α)) from rfl]
        rw [← Multiset.singleton_add]
      · rw [if_neg hb, if_neg hb]
        rw [zero_add]
    simp only [hsplit]
    rw [show ((List.range 8).map (fun i =>
        (if determineChildIndex b.position bounds = i then ({b} : Multiset (OctreeBody α)) else 0) +
          ((distribute bounds rest i : List (OctreeBody α)) :
            Multiset (OctreeBody α)))).sum =
      ((List.range 8).map (fun i =>
        (if determineChildIndex b.position bounds = i then ({b} : Multiset (OctreeBody α)) else 0))).sum +
      ((List.range 8).map (fun i =>
        ((distribute bounds rest i : List (OctreeBody α)) :
          Multiset (OctreeBody α)))).sum from by
      rw [← List.sum_map_add]]
    rw [ih]
    have hb8 : determineChildIndex b.position bounds < 8 :=
      determineChildIndex_lt_8 b.position bounds
    rw [show ((List.range 8).map (fun i =>
        (if determineChildIndex b.position bounds = i then ({b} : Multiset (OctreeBody α)) else 0))).sum =
        ({b} : Multiset (OctreeBody α)) from ?_]
    · rw [show ((b :: rest : List (OctreeBody α)) : Multiset (OctreeBody α)) =
        b ::ₘ (rest : Multiset (OctreeBody α)) from rfl]
      rw [← Multiset.singleton_add]
    · rw [show ((List.range 8).map (fun i =>
        (if determineChildIndex b.position bounds = i then ({b} : Multiset (OctreeBody α)) else 0))).sum =
        ∑ i ∈ Finset.range 8,
          (if determineChildIndex b.position bounds = i then ({b} : Multiset (OctreeBody α)) else 0) from rfl]
      rw [Finset.sum_ite_eq (Finset.range 8) (determineChildIndex b.position bounds)
        (fun _ => ({b} : Multiset (OctreeBody α)))]
      rw [if_pos (Finset.mem_range.mpr hb8)]

end OptimizedOctree

namespace OptimizedOctree

variable {α : Type} [LinearOrderedField α]

theorem foldl_add_eq_sum {M : Type} [AddCommMonoid M] (f : OctreeBody α → M)
    (l : List (OctreeBody α)) :
    ∀ (i : M), l.foldl (fun a b => a + f b) i = i + (l.map f).sum := by
  induction l with
  | nil => intro i; simp
  | cons b rest ih =>
    intro i
    rw [List.foldl_cons, ih (i + f b), List.map_cons, List.sum_cons, add_assoc]

theorem massSum_coe (l : List (OctreeBody α)) :
    massSum (l : Multiset (OctreeBody α)) = (l.map (fun b => b.mass)).sum := rfl

theorem weightedPosSum_coe (l : List (OctreeBody α)) :
    weightedPosSum (l : Multiset (OctreeBody α)) =
      (l.map (fun b => b.position.scale b.mass)).sum := rfl

/-- `accumulateBodies` adds the bodies' mass sum, weighted position sum
and count to the accumulators. -/
theorem accumulateBodies_spec (bs : List (OctreeBody α)) (m : α) (w : Vec3 α)
    (c : ℕ) :
    accumulateBodies bs m w c =
      (m + massSum (bs : Multiset (OctreeBody α)),
       w + weightedPosSum (bs : Multiset (OctreeBody α)),
       c + bs.length) := by
  unfold accumulateBodies
  rw [foldl_add_eq_sum (fun b => b.mass) bs m,
    foldl_add_eq_sum (fun b => b.position.scale b.mass) bs w,
    massSum_coe, weightedPosSum_coe]

/-- The struct-of-arrays weighted sum over parallel maps of one list. -/
theorem weightedSum_of_maps (bs : List (OctreeBody α)) :
    (⟨bs.map (fun b => b.entity), bs.map (fun b => b.position),
      bs.map (fun b => b.mass)⟩ :
      OptimizedOctreeBodies α).weightedSum =
      (bs.map (fun b => b.position.scale b.mass)).sum := by
  unfold OptimizedOctreeBodies.weightedSum
  simp only
  rw [List.zip_map' (fun b => b.position) (fun b => b.mass) bs,
    List.map_map]
  rw [show ((fun pm : Vec3 α × α => pm.1.scale pm.2) ∘
    (fun b : OctreeBody α => (b.position, b.mass))) =
    (fun b : OctreeBody α => b.position.scale b.mass) from rfl]
  rw [← List.sum_eq_foldl]

/-- After at least one `add_body`, a node's hot data is the one
recomputed from its body block. -/
theorem foldl_addBody_hot (bs : List (OctreeBody α)) :
    ∀ (n : OptimizedOctreeNode α), bs ≠ [] →
    (bs.foldl (fun n b => n.addBody b.entity b.position b.mass)
      n).hot_data.total_mass =
      (bs.foldl (fun n b => n.addBody b.entity b.position b.mass)
        n).bodies.totalMass ∧
    (bs.foldl (fun n b => n.addBody b.entity b.position b.mass)
      n).hot_data.center_of_mass =
      (bs.foldl (fun n b => n.addBody b.entity b.position b.mass)
        n).bodies.centerOfMass := by
  induction bs with
  | nil => intro n h; exact absurd rfl h
  | cons b rest ih =>
    intro n _
    rw [List.foldl_cons]
    by_cases hr : rest = []
    · subst hr
      exact ⟨rfl, rfl⟩
    · exact ih (n.addBody b.entity b.position b.mass) hr

/-- The aggregates of a built external node: stored total mass is the mass
sum, stored center of mass follows the code's rule (mass-weighted average
if the mass sum is positive, zero vector otherwise). -/
theorem mkExternalNode_hot (bounds : Aabb3d α) (bs : List (OctreeBody α))
    (hne : bs ≠ []) :
    (mkExternalNode bounds bs).hot_data.total_mass =
      massSum (bs : Multiset (OctreeBody α)) ∧
    (mkExternalNode bounds bs).hot_data.center_of_mass =
      (if massSum (bs : Multiset (OctreeBody α)) > 0 then
        (weightedPosSum (bs : Multiset (OctreeBody α))).divScalar
          (massSum (bs : Multiset (OctreeBody α)))
      else 0) := by
  obtain ⟨hbod, _, _, _⟩ := foldl_addBody_characterization bs
    (OptimizedOctreeNode.newExternal bounds)
  obtain ⟨htm, hcm⟩ := foldl_addBody_hot bs
    (OptimizedOctreeNode.newExternal bounds) hne
  have hbod' : (mkExternalNode bounds bs).bodies =
      ⟨bs.map (fun b => b.entity), bs.map (fun b => b.position),
        bs.map (fun b => b.mass)⟩ := by
    unfold mkExternalNode
    rw [hbod]
    show (⟨[] ++ bs.map (fun b => b.entity), [] ++ bs.map (fun b => b.position),
      [] ++ bs.map (fun b => b.mass)⟩ : OptimizedOctreeBodies α) = _
    rw [List.nil_append, List.nil_append, List.nil_append]
  constructor
  · unfold mkExternalNode
    rw [htm]
    rw [show (bs.foldl (fun n b => n.addBody b.entity b.position b.mass)
      (OptimizedOctreeNode.newExternal bounds)).bodies =
      (mkExternalNode bounds bs).bodies from rfl, hbod']
    show (bs.map (fun b => b.mass)).sum = _
    rw [massSum_coe]
  · unfold mkExternalNode
    rw [hcm]
    rw [show (bs.foldl (fun n b => n.addBody b.entity b.position b.mass)
      (OptimizedOctreeNode.newExternal bounds)).bodies =
      (mkExternalNode bounds bs).bodies from rfl, hbod']
    unfold OptimizedOctreeBodies.centerOfMass
    have hemp : (⟨bs.map (fun b => b.entity), bs.map (fun b => b.position),
        bs.map (fun b => b.mass)⟩ :
        OptimizedOctreeBodies α).isEmpty = false := by
      unfold OptimizedOctreeBodies.isEmpty
      simp only [List.isEmpty_eq_true, List.map_eq_nil_iff]
      simp [hne]
    rw [hemp]
    simp only [Bool.false_eq_true, if_false]
    have htm' : (⟨bs.map (fun b => b.entity), bs.map (fun b => b.position),
        bs.map (fun b => b.mass)⟩ :
        OptimizedOctreeBodies α).totalMass =
        massSum (bs : Multiset (OctreeBody α)) := by
      rw [massSum_coe]
      rfl
    rw [htm', weightedSum_of_maps, ← weightedPosSum_coe]

end OptimizedOctree

namespace OptimizedOctree

variable {α : Type} [LinearOrderedField α]

theorem leafBodies_at (P : OptimizedOctreeNodePool α) (F c : ℕ)
    (node : OptimizedOctreeNode α) (h : P.getNode c = some node) :
    leafBodies P (F + 1) c =
      (match node.cold_data.node_type with
      | NodeType.External => node.bodies.toMultiset
      | NodeType.Internal =>
          ((node.cold_data.children_indices.filterMap id).map
            (leafBodies P F)).sum) := by
  rw [leafBodies_succ, h]

theorem leafBodies_external (P : OptimizedOctreeNodePool α) (F c : ℕ)
    (node : OptimizedOctreeNode α) (h : P.getNode c = some node)
    (hext : node.cold_data.node_type = NodeType.External) :
    leafBodies P (F + 1) c = node.bodies.toMultiset := by
  rw [leafBodies_at P F c node h, hext]

theorem leafBodies_internal (P : OptimizedOctreeNodePool α) (F c : ℕ)
    (node : OptimizedOctreeNode α) (h : P.getNode c = some node)
    (hint : node.cold_data.node_type = NodeType.Internal) :
    leafBodies P (F + 1) c =
      ((node.cold_data.children_indices.filterMap id).map
        (leafBodies P F)).sum := by
  rw [leafBodies_at P F c node h, hint]

theorem aggOK_true_iff (P : OptimizedOctreeNodePool α) (F c : ℕ)
    (node : OptimizedOctreeNode α) (h : P.getNode c = some node) :
    aggOK P (F + 1) c = true ↔
      (node.hot_data.total_mass = massSum (leafBodies P (F + 1) c) ∧
       node.hot_data.center_of_mass =
         (if massSum (leafBodies P (F + 1) c) > 0 then
           (weightedPosSum (leafBodies P (F + 1) c)).divScalar
             (massSum (leafBodies P (F + 1) c))
         else 0) ∧
       ∀ ci ∈ node.cold_data.children_indices.filterMap id,
         aggOK P F ci = true) := by
  rw [aggOK_succ, h]
  simp only [Bool.and_eq_true, decide_eq_true_eq, List.all_eq_true,
    and_assoc]

/-- A freshly created external leaf node satisfies `ChildOK` for its own
body list. -/
theorem ChildOK_external (pool : OptimizedOctreeNodePool α) (lo hi c : ℕ)
    (cb : Aabb3d α) (bs : List (OctreeBody α)) (hne : bs ≠ [])
    (hlo : lo ≤ c) (hhi : c < hi)
    (hc : pool.getNode c = some (mkExternalNode cb bs)) :
    ChildOK pool lo hi c (bs : Multiset (OctreeBody α)) := by
  refine ⟨hlo, hhi, ?_⟩
  intro P hP F hF
  have hPc : P.getNode c = some (mkExternalNode cb bs) := by
    rw [hP c hlo hhi, hc]
  obtain ⟨F', rfl⟩ : ∃ F', F = F' + 1 := ⟨F - 1, by omega⟩
  have hlb : leafBodies P (F' + 1) c = (bs : Multiset (OctreeBody α)) := by
    rw [leafBodies_external P F' c _ hPc (mkExternalNode_spec cb bs).2.1]
    unfold OptimizedOctreeBodies.toMultiset
    rw [(mkExternalNode_spec cb bs).1]
  refine ⟨hlb, ?_⟩
  rw [aggOK_true_iff P F' c _ hPc]
  refine ⟨?_, ?_, ?_⟩
  · rw [hlb]
    exact (mkExternalNode_hot cb bs hne).1
  · rw [hlb]
    exact (mkExternalNode_hot cb bs hne).2
  · rw [(mkExternalNode_spec cb bs).2.2.2, filterMap_id_replicate_none]
    intro ci hci
    exact absurd hci (List.not_mem_nil ci)

end OptimizedOctree

namespace OptimizedOctree

variable {α : Type} [LinearOrderedField α]

theorem massSum_add (S T : Multiset (OctreeBody α)) :
    massSum (S + T) = massSum S + massSum T := by
  unfold massSum
  rw [Multiset.map_add, Multiset.sum_add]

theorem weightedPosSum_add (S T : Multiset (OctreeBody α)) :
    weightedPosSum (S + T) = weightedPosSum S + weightedPosSum T := by
  unfold weightedPosSum
  rw [Multiset.map_add, Multiset.sum_add]

/-- Leaf step of the child-creation loop, with an empty free list. -/
theorem buildChildrenLoop_cons_leaf
    (recur : OptimizedOctreeNodePool α → ℕ → List (OctreeBody α) →
      Option (OptimizedOctreeNodePool α))
    (lt parentIdx i : ℕ) (cb : Aabb3d α) (bs : List (OctreeBody α))
    (rest : List (ℕ × Aabb3d α × List (OctreeBody α)))
    (pool : OptimizedOctreeNodePool α) (m : α) (w : Vec3 α) (c : ℕ)
    (hne : bs.isEmpty = false) (hleaf : bs.length ≤ lt)
    (hfree : pool.free_indices = []) :
    buildChildrenLoop recur lt parentIdx ((i, cb, bs) :: rest) pool m w c =
      buildChildrenLoop recur lt parentIdx rest
        (poolAfterChild pool parentIdx i (mkExternalNode cb bs))
        (accumulateBodies bs m w c).1 (accumulateBodies bs m w c).2.1
        (accumulateBodies bs m w c).2.2 := by
  rw [buildChildrenLoop_cons_ne recur lt parentIdx i cb bs rest pool m w c hne]
  simp only [if_pos hleaf]
  unfold OptimizedOctreeNodePool.allocateNode
  rw [hfree]
  rfl

/-- Internal step of the child-creation loop, with an empty free list. -/
theorem buildChildrenLoop_cons_internal
    (recur : OptimizedOctreeNodePool α → ℕ → List (OctreeBody α) →
      Option (OptimizedOctreeNodePool α))
    (lt parentIdx i : ℕ) (cb : Aabb3d α) (bs : List (OctreeBody α))
    (rest : List (ℕ × Aabb3d α × List (OctreeBody α)))
    (pool : OptimizedOctreeNodePool α) (m : α) (w : Vec3 α) (c : ℕ)
    (hne : bs.isEmpty = false) (hleaf : ¬ bs.length ≤ lt)
    (hfree : pool.free_indices = []) :
    buildChildrenLoop recur lt parentIdx ((i, cb, bs) :: rest) pool m w c =
      (match recur
          (poolAfterChild pool parentIdx i
            (OptimizedOctreeNode.newInternal cb 0 0))
          pool.next_index bs with
      | none => none
      | some pool₃ =>
          buildChildrenLoop recur lt parentIdx rest pool₃
            (accumulateBodies bs m w c).1 (accumulateBodies bs m w c).2.1
            (accumulateBodies bs m w c).2.2) := by
  rw [buildChildrenLoop_cons_ne recur lt parentIdx i cb bs rest pool m w c hne]
  simp only [if_neg hleaf]
  unfold OptimizedOctreeNodePool.allocateNode
  rw [hfree]
  rfl

/-- The elementary facts about `poolAfterChild`. -/
theorem poolAfterChild_facts (pool : OptimizedOctreeNodePool α)
    (parentIdx i : ℕ) (childNode pn : OptimizedOctreeNode α)
    (hnext : pool.next_index = pool.nodes.length)
    (hpar : pool.getNode parentIdx = some pn) :
    (poolAfterChild pool parentIdx i childNode).free_indices = [] ∧
    (poolAfterChild pool parentIdx i childNode).next_index =
      (poolAfterChild pool parentIdx i childNode).nodes.length ∧
    (poolAfterChild pool parentIdx i childNode).nodes.length =
      pool.nodes.length + 1 ∧
    (poolAfterChild pool parentIdx i childNode).getNode pool.next_index =
      some childNode ∧
    (∀ k, k < pool.nodes.length → k ≠ parentIdx →
      (poolAfterChild pool parentIdx i childNode).getNode k =
        pool.getNode k) ∧
    (poolAfterChild pool parentIdx i childNode).getNode parentIdx =
      some (pn.setChildIndex i (some pool.next_index)) := by
  have hplt : parentIdx < pool.nodes.length := by
    by_contra hcon
    rw [OptimizedOctreeNodePool.getNode,
      List.getElem?_eq_none (by omega)] at hpar
    exact Option.noConfusion hpar
  have hpar1 : (⟨pool.nodes ++ [childNode], [], pool.next_index + 1⟩ :
      OptimizedOctreeNodePool α).getNode parentIdx = some pn := by
    rw [OptimizedOctreeNodePool.getNode]
    show (pool.nodes ++ [childNode])[parentIdx]? = some pn
    rw [List.getElem?_append_left hplt]
    exact hpar
  have hunfold : poolAfterChild pool parentIdx i childNode =
      (⟨pool.nodes ++ [childNode], [], pool.next_index + 1⟩ :
        OptimizedOctreeNodePool α).setNode parentIdx
        (pn.setChildIndex i (some pool.next_index)) := by
    unfold poolAfterChild
    simp only [hpar1]
  rw [hunfold]
  refine ⟨rfl, ?_, ?_, ?_, ?_, ?_⟩
  · show pool.next_index + 1 = _
    rw [setNode_length]
    simp [hnext]
  · rw [setNode_length]
    simp
  · show ((pool.nodes ++ [childNode]).set parentIdx _)[pool.next_index]? = _
    rw [List.getElem?_set_ne (by omega)]
    rw [hnext, List.getElem?_concat_length]
  · intro k hk hkp
    show ((pool.nodes ++ [childNode]).set parentIdx _)[k]? = _
    rw [List.getElem?_set_ne (fun h => hkp h.symm),
      List.getElem?_append_left hk]
    rfl
  · show ((pool.nodes ++ [childNode]).set parentIdx _)[parentIdx]? = _
    rw [List.getElem?_set_eq (by simp; omega)]

theorem setChildIndex_fields (pn : OptimizedOctreeNode α) (i : ℕ)
    (v : Option ℕ) :
    (pn.setChildIndex i v).hot_data = pn.hot_data ∧
    (pn.setChildIndex i v).bodies = pn.bodies ∧
    (pn.setChildIndex i v).cold_data.bounds = pn.cold_data.bounds ∧
    (pn.setChildIndex i v).cold_data.node_type = pn.cold_data.node_type ∧
    (pn.setChildIndex i v).cold_data.body_count = pn.cold_data.body_count ∧
    (pn.setChildIndex i v).cold_data.children_indices =
      pn.cold_data.children_indices.set i v :=
  ⟨rfl, rfl, rfl, rfl, rfl, rfl⟩

end OptimizedOctree

namespace OptimizedOctree

variable {α : Type} [LinearOrderedField α]

/-- Correctness of the child-creation loop of `build_recursive`.  Under
the build-time pool invariants, a successful run extends the pool,
touches only the parent among pre-existing nodes, adds the processed
bodies to the accumulators, and populates the parent's empty child slots
with subtrees that collect exactly the distributed bodies and satisfy
the aggregate invariant. -/
theorem buildChildrenLoop_spec (lt fuel parentIdx : ℕ)
    (hrec : BuildRecSpec (α := α) lt fuel) :
    ∀ (entries : List (ℕ × Aabb3d α × List (OctreeBody α)))
      (pool : OptimizedOctreeNodePool α) (m : α) (w : Vec3 α) (c : ℕ)
      (pool' : OptimizedOctreeNodePool α) (m' : α) (w' : Vec3 α) (c' : ℕ)
      (pn : OptimizedOctreeNode α),
      buildChildrenLoop (buildRecursive lt fuel) lt parentIdx entries pool m w c
        = some (pool', m', w', c') →
      pool.free_indices = [] →
      pool.next_index = pool.nodes.length →
      pool.getNode parentIdx = some pn →
      (∀ e ∈ entries,
        pn.cold_data.children_indices[e.1]? = some none) →
      entries.Pairwise (fun e₁ e₂ => e₁.1 ≠ e₂.1) →
      pool'.free_indices = [] ∧
      pool'.next_index = pool'.nodes.length ∧
      pool.nodes.length ≤ pool'.nodes.length ∧
      (∀ k, k < pool.nodes.length → k ≠ parentIdx →
        pool'.getNode k = pool.getNode k) ∧
      m' = m + massSum ((entries.map (fun e =>
        ((e.2.2 : List (OctreeBody α)) : Multiset (OctreeBody α)))).sum) ∧
      w' = w + weightedPosSum ((entries.map (fun e =>
        ((e.2.2 : List (OctreeBody α)) : Multiset (OctreeBody α)))).sum) ∧
      ∃ (pn' : OptimizedOctreeNode α)
        (news : List (ℕ × Multiset (OctreeBody α))),
        pool'.getNode parentIdx = some pn' ∧
        pn'.hot_data = pn.hot_data ∧
        pn'.bodies = pn.bodies ∧
        pn'.cold_data.bounds = pn.cold_data.bounds ∧
        pn'.cold_data.node_type = pn.cold_data.node_type ∧
        ((pn'.cold_data.children_indices.filterMap id : List ℕ) :
          Multiset ℕ) =
          ((pn.cold_data.children_indices.filterMap id : List ℕ) :
            Multiset ℕ) +
          ((news.map (fun x => x.1) : List ℕ) : Multiset ℕ) ∧
        (news.map (fun x => x.2)).sum = ((entries.map (fun e =>
          ((e.2.2 : List (OctreeBody α)) : Multiset (OctreeBody α)))).sum) ∧
        (∀ x ∈ news, ChildOK pool' pool.nodes.length pool'.nodes.length
          x.1 x.2) := by
  intro entries
  induction entries with
  | nil =>
    intro pool m w c pool' m' w' c' pn hloop hfree hnext hpar hslots hpw
    rw [buildChildrenLoop_nil] at hloop
    simp only [Option.some.injEq, Prod.mk.injEq] at hloop
    obtain ⟨rfl, rfl, rfl, rfl⟩ := hloop
    refine ⟨hfree, hnext, le_rfl, fun k _ _ => rfl, ?_, ?_,
      pn, [], hpar, rfl, rfl, rfl, rfl, ?_, ?_, ?_⟩
    · simp [massSum]
    · simp [weightedPosSum]
    · simp
    · simp
    · intro x hx
      exact absurd hx (List.not_mem_nil x)
  | cons entry rest ih =>
    obtain ⟨i, cb, bs⟩ := entry
    intro pool m w c pool' m' w' c' pn hloop hfree hnext hpar hslots hpw
    have hplt : parentIdx < pool.nodes.length := by
      by_contra hcon
      rw [OptimizedOctreeNodePool.getNode,
        List.getElem?_eq_none (by omega)] at hpar
      exact Option.noConfusion hpar
    have hslot_i : pn.cold_data.children_indices[i]? = some none :=
      hslots (i, cb, bs) (List.mem_cons_self _ _)
    have hpw' := List.pairwise_cons.mp hpw
    by_cases hemp : bs.isEmpty
    · -- empty octant: nothing allocated, nothing accumulated
      have hbs : bs = [] := List.isEmpty_iff.mp hemp
      subst hbs
      rw [buildChildrenLoop_cons_empty] at hloop
      obtain ⟨hc1, hc2, hc3, hc4, hc5, hc6, pn', news, hn1, hn2, hn3, hn4,
        hn5, hn6, hn7, hn8⟩ :=
        ih pool m w c pool' m' w' c' pn hloop hfree hnext hpar
          (fun e he => hslots e (List.mem_cons_of_mem _ he)) hpw'.2
      refine ⟨hc1, hc2, hc3, hc4, ?_, ?_, pn', news, hn1, hn2, hn3, hn4,
        hn5, hn6, ?_, hn8⟩
      · simpa only [List.map_cons, List.sum_cons, Multiset.coe_nil,
          zero_add] using hc5
      · simpa only [List.map_cons, List.sum_cons, Multiset.coe_nil,
          zero_add] using hc6
      · simpa only [List.map_cons, List.sum_cons, Multiset.coe_nil,
          zero_add] using hn7
    · -- non-empty octant: a child is allocated and linked into slot i
      have hne : bs.isEmpty = false := by
        rwa [Bool.not_eq_true] at hemp
      have hbsne : bs ≠ [] := by
        intro h
        subst h
        simp at hne
      have hchild_lt : pool.next_index < pool.nodes.length + 1 := by omega
      by_cases hleaf : bs.length ≤ lt
      · -- external (leaf) child
        rw [buildChildrenLoop_cons_leaf _ lt parentIdx i cb bs rest pool
          m w c hne hleaf hfree] at hloop
        simp only [accumulateBodies_spec] at hloop
        obtain ⟨pf1, pf2, pf3, pf4, pf5, pf6⟩ := poolAfterChild_facts pool
          parentIdx i (mkExternalNode cb bs) pn hnext hpar
        have hslots₂ : ∀ e ∈ rest,
            (pn.setChildIndex i (some pool.next_index)
              ).cold_data.children_indices[e.1]? = some none := by
          intro e he
          have hine : i ≠ e.1 := hpw'.1 e he
          rw [(setChildIndex_fields pn i (some pool.next_index)).2.2.2.2.2]
          rw [List.getElem?_set_ne hine]
          exact hslots e (List.mem_cons_of_mem _ he)
        obtain ⟨hc1, hc2, hc3, hc4, hc5, hc6, pn', news, hn1, hn2, hn3, hn4,
          hn5, hn6, hn7, hn8⟩ :=
          ih (poolAfterChild pool parentIdx i (mkExternalNode cb bs))
            (m + massSum (bs : Multiset (OctreeBody α)))
            (w + weightedPosSum (bs : Multiset (OctreeBody α)))
            (c + bs.length) pool' m' w' c'
            (pn.setChildIndex i (some pool.next_index)) hloop pf1 pf2 pf6
            hslots₂ hpw'.2
        have hlen₂ : (poolAfterChild pool parentIdx i
            (mkExternalNode cb bs)).nodes.length = pool.nodes.length + 1 :=
          pf3
        have hchildOK₀ : ChildOK
            (poolAfterChild pool parentIdx i (mkExternalNode cb bs))
            pool.nodes.length
            (poolAfterChild pool parentIdx i
              (mkExternalNode cb bs)).nodes.length
            pool.next_index (bs : Multiset (OctreeBody α)) :=
          ChildOK_external _ _ _ _ cb bs hbsne (by omega) (by omega) pf4
        have hchildOK : ChildOK pool' pool.nodes.length pool'.nodes.length
            pool.next_index (bs : Multiset (OctreeBody α)) := by
          refine hchildOK₀.mono le_rfl (by omega) ?_
          intro k hk1 hk2
          exact hc4 k hk2 (by omega)
        refine ⟨hc1, hc2, by omega, ?_, ?_, ?_, pn',
          (pool.next_index, (bs : Multiset (OctreeBody α))) :: news,
          hn1, ?_, ?_, ?_, ?_, ?_, ?_, ?_⟩
        · intro k hk hkp
          rw [hc4 k (by omega) hkp, pf5 k hk hkp]
        · rw [List.map_cons, List.sum_cons, massSum_add, ← add_assoc]
          exact hc5
        · rw [List.map_cons, List.sum_cons, weightedPosSum_add, ← add_assoc]
          exact hc6
        · rw [hn2, (setChildIndex_fields pn i (some pool.next_index)).1]
        · rw [hn3, (setChildIndex_fields pn i (some pool.next_index)).2.1]
        · rw [hn4, (setChildIndex_fields pn i (some pool.next_index)).2.2.1]
        · rw [hn5,
            (setChildIndex_fields pn i (some pool.next_index)).2.2.2.1]
        · rw [hn6,
            (setChildIndex_fields pn i (some pool.next_index)).2.2.2.2.2,
            filterMap_id_set_none _ i pool.next_index hslot_i]
          rw [List.map_cons]
          rw [show (((pool.next_index :: news.map (fun x => x.1)) :
            List ℕ) : Multiset ℕ) =
            pool.next_index ::ₘ ((news.map (fun x => x.1) : List ℕ) :
              Multiset ℕ) from rfl]
          rw [Multiset.cons_add, Multiset.add_cons]
        · rw [List.map_cons, List.sum_cons, List.map_cons, List.sum_cons]
          rw [hn7]
        · intro x hx
          rcases List.mem_cons.mp hx with rfl | hmem
          · exact hchildOK
          · exact (hn8 x hmem).mono (by omega) le_rfl (fun k _ _ => rfl)
      · -- internal child: recurse into it
        rw [buildChildrenLoop_cons_internal _ lt parentIdx i cb bs rest pool
          m w c hne hleaf hfree] at hloop
        cases hres : buildRecursive lt fuel
            (poolAfterChild pool parentIdx i
              (OptimizedOctreeNode.newInternal cb 0 0))
            pool.next_index bs with
        | none =>
          rw [hres] at hloop
          exact Option.noConfusion hloop
        | some pool₃ =>
          rw [hres] at hloop
          simp only [accumulateBodies_spec] at hloop
          obtain ⟨pf1, pf2, pf3, pf4, pf5, pf6⟩ := poolAfterChild_facts pool
            parentIdx i (OptimizedOctreeNode.newInternal cb 0 0) pn hnext
            hpar
          obtain ⟨hr1, hr2, hr3, hr4, hr5, hr6⟩ :=
            hrec (poolAfterChild pool parentIdx i
              (OptimizedOctreeNode.newInternal cb 0 0))
              pool.next_index cb bs pool₃ hres pf1 pf2 pf4 (by omega)
          have hpar₃ : pool₃.getNode parentIdx =
              some (pn.setChildIndex i (some pool.next_index)) := by
            rw [hr4 parentIdx (by omega) (by omega), pf6]
          have hslots₃ : ∀ e ∈ rest,
              (pn.setChildIndex i (some pool.next_index)
                ).cold_data.children_indices[e.1]? = some none := by
            intro e he
            have hine : i ≠ e.1 := hpw'.1 e he
            rw [(setChildIndex_fields pn i (some pool.next_index)).2.2.2.2.2]
            rw [List.getElem?_set_ne hine]
            exact hslots e (List.mem_cons_of_mem _ he)
          obtain ⟨hc1, hc2, hc3, hc4, hc5, hc6, pn', news, hn1, hn2, hn3,
            hn4, hn5, hn6, hn7, hn8⟩ :=
            ih pool₃
              (m + massSum (bs : Multiset (OctreeBody α)))
              (w + weightedPosSum (bs : Multiset (OctreeBody α)))
              (c + bs.length) pool' m' w' c'
              (pn.setChildIndex i (some pool.next_index)) hloop hr1 hr2
              hpar₃ hslots₃ hpw'.2
          have hlen₂ : (poolAfterChild pool parentIdx i
              (OptimizedOctreeNode.newInternal cb 0 0)).nodes.length =
              pool.nodes.length + 1 := pf3
          have hchildOK₃ : ChildOK pool₃ pool.nodes.length
              pool₃.nodes.length pool.next_index
              (bs : Multiset (OctreeBody α)) := by
            refine ⟨by omega, by omega, ?_⟩
            intro P hP F hF
            refine hr6 P ?_ ?_ F (by omega)
            · rw [hP pool.next_index (by omega) (by omega)]
            · intro k hk1 hk2
              exact hP k (by omega) hk2
          have hchildOK : ChildOK pool' pool.nodes.length
              pool'.nodes.length pool.next_index
              (bs : Multiset (OctreeBody α)) := by
            refine hchildOK₃.mono le_rfl hc3 ?_
            intro k hk1 hk2
            exact hc4 k hk2 (by omega)
          refine ⟨hc1, hc2, by omega, ?_, ?_, ?_, pn',
            (pool.next_index, (bs : Multiset (OctreeBody α))) :: news,
            hn1, ?_, ?_, ?_, ?_, ?_, ?_, ?_⟩
          · intro k hk hkp
            rw [hc4 k (by omega) hkp, hr4 k (by omega) (by omega),
              pf5 k hk hkp]
          · rw [List.map_cons, List.sum_cons, massSum_add, ← add_assoc]
            exact hc5
          · rw [List.map_cons, List.sum_cons, weightedPosSum_add,
              ← add_assoc]
            exact hc6
          · rw [hn2, (setChildIndex_fields pn i (some pool.next_index)).1]
          · rw [hn3, (setChildIndex_fields pn i (some pool.next_index)).2.1]
          · rw [hn4,
              (setChildIndex_fields pn i (some pool.next_index)).2.2.1]
          · rw [hn5,
              (setChildIndex_fields pn i (some pool.next_index)).2.2.2.1]
          · rw [hn6,
              (setChildIndex_fields pn i (some pool.next_index)).2.2.2.2.2,
              filterMap_id_set_none _ i pool.next_index hslot_i]
            rw [List.map_cons]
            rw [show (((pool.next_index :: news.map (fun x => x.1)) :
              List ℕ) : Multiset ℕ) =
              pool.next_index ::ₘ ((news.map (fun x => x.1) : List ℕ) :
                Multiset ℕ) from rfl]
            rw [Multiset.cons_add, Multiset.add_cons]
          · rw [List.map_cons, List.sum_cons, List.map_cons, List.sum_cons]
            rw [hn7]
          · intro x hx
            rcases List.mem_cons.mp hx with rfl | hmem
            · exact hchildOK
            · exact (hn8 x hmem).mono (by omega) le_rfl (fun k _ _ => rfl)

end OptimizedOctree

namespace OptimizedOctree

variable {α : Type} [LinearOrderedField α]

theorem updateInternalData_fields (pn : OptimizedOctreeNode α) (com : Vec3 α)
    (tm : α) (bc : ℕ) :
    (pn.updateInternalData com tm bc).hot_data.total_mass = tm ∧
    (pn.updateInternalData com tm bc).hot_data.center_of_mass = com ∧
    (pn.updateInternalData com tm bc).cold_data.bounds =
      pn.cold_data.bounds ∧
    (pn.updateInternalData com tm bc).cold_data.node_type =
      pn.cold_data.node_type ∧
    (pn.updateInternalData com tm bc).cold_data.children_indices =
      pn.cold_data.children_indices :=
  ⟨rfl, rfl, rfl, rfl, rfl⟩

theorem newInternal_fields (B : Aabb3d α) (cm : Vec3 α) (tm : α) :
    (OptimizedOctreeNode.newInternal B cm tm).cold_data.bounds = B ∧
    (OptimizedOctreeNode.newInternal B cm tm).cold_data.node_type =
      NodeType.Internal ∧
    (OptimizedOctreeNode.newInternal B cm tm).cold_data.children_indices =
      List.replicate 8 none :=
  ⟨rfl, rfl, rfl⟩

theorem list_map_sum_of_coe_eq {β γ : Type} [AddCommMonoid γ]
    (l₁ l₂ : List β) (f : β → γ) (h : (l₁ : Multiset β) = (l₂ : Multiset β)) :
    (l₁.map f).sum = (l₂.map f).sum := by
  have h2 : (Multiset.map f (l₁ : Multiset β)).sum =
      (Multiset.map f (l₂ : Multiset β)).sum := by rw [h]
  simpa using h2

theorem map_fst_map_sum {β : Type} [AddCommMonoid β]
    (news : List (ℕ × β)) (g : ℕ → β)
    (h : ∀ x ∈ news, g x.1 = x.2) :
    ((news.map (fun x => x.1)).map g).sum =
      (news.map (fun x => x.2)).sum := by
  induction news with
  | nil => rfl
  | cons x rest ih =>
    simp only [List.map_cons, List.sum_cons]
    rw [h x (List.mem_cons_self _ _),
      ih (fun y hy => h y (List.mem_cons_of_mem _ hy))]

/-- The build-recursion invariant holds for every fuel value. -/
theorem buildRecursive_spec (lt : ℕ) :
    ∀ fuel : ℕ, BuildRecSpec (α := α) lt fuel := by
  intro fuel
  induction fuel with
  | zero =>
    intro pool idx B bodies pool' hbuild
    rw [buildRecursive_zero] at hbuild
    exact absurd hbuild (Option.noConfusion)
  | succ fuel ih =>
    intro pool idx B bodies pool' hbuild hfree hnext hidx hlt
    have hidxlt : idx < pool.nodes.length := by
      by_contra hcon
      rw [OptimizedOctreeNodePool.getNode,
        List.getElem?_eq_none (by omega)] at hidx
      exact Option.noConfusion hidx
    rw [buildRecursive_succ, if_neg (by omega)] at hbuild
    rw [hidx] at hbuild
    simp only at hbuild
    cases hloop : buildChildrenLoop (buildRecursive lt fuel) lt idx
        ((List.range 8).map (fun i =>
          (i, (OptimizedOctreeNode.newInternal B (0 : Vec3 α)
            0).bounds.subdivideIntoChildren.getD i ⟨0, 0⟩,
           distribute (OptimizedOctreeNode.newInternal B (0 : Vec3 α)
            0).bounds bodies i)))
        pool 0 0 0 with
    | none =>
      rw [hloop] at hbuild
      exact absurd hbuild (Option.noConfusion)
    | some out =>
      obtain ⟨pool₁, m, w, c⟩ := out
      rw [hloop] at hbuild
      simp only at hbuild
      have hslots : ∀ e ∈ (List.range 8).map (fun i =>
          (i, (OptimizedOctreeNode.newInternal B (0 : Vec3 α)
            0).bounds.subdivideIntoChildren.getD i ⟨0, 0⟩,
           distribute (OptimizedOctreeNode.newInternal B (0 : Vec3 α)
            0).bounds bodies i)),
          (OptimizedOctreeNode.newInternal B (0 : Vec3 α)
            0).cold_data.children_indices[e.1]? = some none := by
        intro e he
        simp only [List.mem_map, List.mem_range] at he
        obtain ⟨j, hj, rfl⟩ := he
        rw [(newInternal_fields B 0 0).2.2]
        exact List.getElem?_replicate_of_lt hj
      have hpw : ((List.range 8).map (fun i =>
          (i, (OptimizedOctreeNode.newInternal B (0 : Vec3 α)
            0).bounds.subdivideIntoChildren.getD i ⟨0, 0⟩,
           distribute (OptimizedOctreeNode.newInternal B (0 : Vec3 α)
            0).bounds bodies i))).Pairwise
          (fun e₁ e₂ => e₁.1 ≠ e₂.1) := by
        rw [List.pairwise_map]
        exact (List.pairwise_lt_range 8).imp (fun h => Nat.ne_of_lt h)
      obtain ⟨hc1, hc2, hc3, hc4, hc5, hc6, pn', news, hn1, hn2, hn3, hn4,
        hn5, hn6, hn7, hn8⟩ :=
        buildChildrenLoop_spec lt fuel idx ih _ pool 0 0 0 pool₁ m w c
          (OptimizedOctreeNode.newInternal B 0 0) hloop hfree hnext hidx
          hslots hpw
      rw [hn1] at hbuild
      simp only [Option.some.injEq] at hbuild
      subst hbuild
      -- the multiset of all distributed bodies is the input multiset
      have hE : ((((List.range 8).map (fun i =>
          (i, (OptimizedOctreeNode.newInternal B (0 : Vec3 α)
            0).bounds.subdivideIntoChildren.getD i ⟨0, 0⟩,
           distribute (OptimizedOctreeNode.newInternal B (0 : Vec3 α)
            0).bounds bodies i))).map (fun e =>
          ((e.2.2 : List (OctreeBody α)) : Multiset (OctreeBody α)))).sum :
            Multiset (OctreeBody α)) =
          (bodies : Multiset (OctreeBody α)) := by
        rw [List.map_map]
        exact distribute_partition
          (OptimizedOctreeNode.newInternal B (0 : Vec3 α) 0).bounds bodies
      rw [hE] at hc5 hc6 hn7
      rw [zero_add] at hc5 hc6
      set pnF := pn'.updateInternalData
        (if m > 0 then w.divScalar m else 0) m c with hpnF
      have hfinal_at : (pool₁.setNode idx pnF).getNode idx = some pnF := by
        show (pool₁.nodes.set idx pnF)[idx]? = some pnF
        rw [List.getElem?_set_self (by omega)]
      have hfinal_frame : ∀ k, k ≠ idx →
          (pool₁.setNode idx pnF).getNode k = pool₁.getNode k := by
        intro k hk
        show (pool₁.nodes.set idx pnF)[k]? = pool₁.nodes[k]?
        rw [List.getElem?_set_ne (fun h => hk h.symm)]
      refine ⟨hc1, ?_, ?_, ?_, ?_, ?_⟩
      · show pool₁.next_index = (pool₁.nodes.set idx pnF).length
        rw [List.length_set]
        exact hc2
      · rw [show (pool₁.setNode idx pnF).nodes.length =
          pool₁.nodes.length from by rw [setNode_length]]
        omega
      · intro k hk hknidx
        rw [hfinal_frame k hknidx, hc4 k hk hknidx]
      · refine ⟨pnF, hfinal_at, ?_, ?_⟩
        · rw [hpnF, (updateInternalData_fields pn' _ m c).2.2.1, hn4,
            (newInternal_fields B 0 0).1]
        · rw [hpnF, (updateInternalData_fields pn' _ m c).2.2.2.1, hn5,
            (newInternal_fields B 0 0).2.1]
      · intro P hPidx hPregion F hF
        have hlen₁ : (pool₁.setNode idx pnF).nodes.length =
            pool₁.nodes.length := by rw [setNode_length]
        rw [hlen₁] at hPregion hF
        have hPidx' : P.getNode idx = some pnF := by rw [hPidx, hfinal_at]
        have hPregion' : ∀ k, pool.nodes.length ≤ k →
            k < pool₁.nodes.length → P.getNode k = pool₁.getNode k := by
          intro k hk1 hk2
          rw [hPregion k hk1 hk2, hfinal_frame k (by omega)]
        obtain ⟨F', rfl⟩ : ∃ F', F = F' + 1 := ⟨F - 1, by omega⟩
        have hchildren_ms :
            ((pnF.cold_data.children_indices.filterMap id : List ℕ) :
              Multiset ℕ) =
            ((news.map (fun x => x.1) : List ℕ) : Multiset ℕ) := by
          rw [hpnF, (updateInternalData_fields pn' _ m c).2.2.2.2, hn6,
            (newInternal_fields B 0 0).2.2, filterMap_id_replicate_none]
          rw [show (([] : List ℕ) : Multiset ℕ) = 0 from rfl, zero_add]
        have hchild_facts : ∀ x ∈ news,
            leafBodies P F' x.1 = x.2 ∧ aggOK P F' x.1 = true := by
          intro x hx
          obtain ⟨hx1, hx2, hx3⟩ := hn8 x hx
          exact hx3 P (fun k hk1 hk2 => hPregion' k hk1 hk2) F' (by omega)
        have hlb : leafBodies P (F' + 1) idx =
            (bodies : Multiset (OctreeBody α)) := by
          rw [leafBodies_internal P F' idx pnF hPidx'
            (by rw [hpnF, (updateInternalData_fields pn' _ m c).2.2.2.1,
              hn5, (newInternal_fields B 0 0).2.1])]
          rw [list_map_sum_of_coe_eq _ _ (leafBodies P F') hchildren_ms]
          rw [map_fst_map_sum news (leafBodies P F')
            (fun x hx => (hchild_facts x hx).1)]
          exact hn7
        refine ⟨hlb, ?_⟩
        rw [aggOK_true_iff P F' idx pnF hPidx']
        refine ⟨?_, ?_, ?_⟩
        · rw [hlb, hpnF, (updateInternalData_fields pn' _ m c).1, hc5]
        · rw [hlb, hpnF, (updateInternalData_fields pn' _ m c).2.1, hc5,
            hc6]
        · intro ci hci
          have hci_ms : ci ∈ ((news.map (fun x => x.1) : List ℕ) :
              Multiset ℕ) := by
            rw [← hchildren_ms]
            exact hci
          have hci_list : ci ∈ news.map (fun x => x.1) := hci_ms
          obtain ⟨x, hx, rfl⟩ := List.mem_map.mp hci_list
          exact (hchild_facts x hx).2

end OptimizedOctree

namespace OptimizedOctree

variable {α : Type} [LinearOrderedField α]

theorem build_cons_big (fuel : ℕ) (oct : OptimizedOctree α)
    (first : OctreeBody α) (rest : List (OctreeBody α))
    (h : ¬ (first :: rest).length ≤ oct.leaf_threshold) :
    build fuel oct (first :: rest) =
      (match buildRecursive oct.leaf_threshold fuel
          ⟨[OptimizedOctreeNode.newInternal (buildRootBounds first rest) 0 0],
            [], 1⟩ 0 (first :: rest) with
      | none => none
      | some pool' =>
          some { afterDealloc oct with
            root_index := some 0
            node_pool := pool' }) := by
  unfold build
  simp only [afterDealloc_leaf_threshold]
  rw [if_neg h]
  rfl

/-- Combined root-level consequence of a successful non-empty build: the
root is node 0, its bounds are the expanded bounding box, the leaves
collect exactly the input bodies, and the aggregate invariant holds at
every node. -/
theorem build_root_spec (fuel : ℕ) (oct oct' : OptimizedOctree α)
    (first : OctreeBody α) (rest : List (OctreeBody α))
    (hbuild : build fuel oct (first :: rest) = some oct') :
    oct'.root_index = some 0 ∧
    (∃ n, oct'.node_pool.getNode 0 = some n ∧
      n.cold_data.bounds = buildRootBounds first rest) ∧
    ∀ F, oct'.node_pool.nodes.length ≤ F →
      leafBodies oct'.node_pool F 0 =
        ((first :: rest : List (OctreeBody α)) : Multiset (OctreeBody α)) ∧
      aggOK oct'.node_pool F 0 = true := by
  by_cases hsmall : (first :: rest).length ≤ oct.leaf_threshold
  · rw [build_cons_small fuel oct first rest hsmall,
      Option.some.injEq] at hbuild
    subst hbuild
    have hget : (⟨[mkExternalNode (buildRootBounds first rest)
        (first :: rest)], [], 1⟩ :
        OptimizedOctreeNodePool α).getNode 0 =
        some (mkExternalNode (buildRootBounds first rest) (first :: rest)) :=
      rfl
    refine ⟨rfl, ⟨_, hget,
      (mkExternalNode_spec (buildRootBounds first rest) (first :: rest)).2.2.1⟩,
      ?_⟩
    intro F hF
    have hchild : ChildOK (⟨[mkExternalNode (buildRootBounds first rest)
        (first :: rest)], [], 1⟩ : OptimizedOctreeNodePool α) 0 1 0
        ((first :: rest : List (OctreeBody α)) : Multiset (OctreeBody α)) :=
      ChildOK_external _ 0 1 0 (buildRootBounds first rest) (first :: rest)
        (List.cons_ne_nil first rest) le_rfl Nat.one_pos hget
    exact hchild.2.2 _ (fun k _ _ => rfl) F (by simpa using hF)
  · rw [build_cons_big fuel oct first rest hsmall] at hbuild
    cases hres : buildRecursive oct.leaf_threshold fuel
        ⟨[OptimizedOctreeNode.newInternal (buildRootBounds first rest) 0 0],
          [], 1⟩ 0 (first :: rest) with
    | none =>
      rw [hres] at hbuild
      exact absurd hbuild (Option.noConfusion)
    | some pool' =>
      rw [hres] at hbuild
      simp only [Option.some.injEq] at hbuild
      subst hbuild
      obtain ⟨hr1, hr2, hr3, hr4, ⟨n', hn'1, hn'2, hn'3⟩, hr6⟩ :=
        buildRecursive_spec oct.leaf_threshold fuel
          ⟨[OptimizedOctreeNode.newInternal (buildRootBounds first rest) 0 0],
            [], 1⟩ 0 (buildRootBounds first rest) (first :: rest) pool'
          hres rfl rfl rfl
          (by simp only [List.length_cons] at hsmall ⊢; omega)
      refine ⟨rfl, ⟨n', hn'1, hn'2⟩, ?_⟩
      intro F hF
      exact hr6 pool' rfl (fun k _ _ => rfl) F (by simpa using hF)

end OptimizedOctree

section ClaimTheorems8

open OptimizedOctree

variable {α : Type} [LinearOrderedField α]

/-- C1.  Body conservation: for every non-empty body collection on which
`build` terminates, the multiset of bodies stored in the leaves reachable
from the root equals the input collection — every supplied body is in
exactly one leaf, none duplicated or dropped — so the sum of leaf body
counts equals the input count. -/
theorem octree_build_body_conservation (fuel : ℕ)
    (oct oct' : OptimizedOctree α) (bodies : List (OctreeBody α)) (r : ℕ)
    (hne : bodies ≠ [])
    (hbuild : build fuel oct bodies = some oct')
    (hroot : oct'.root_index = some r) :
    ∀ F, oct'.node_pool.nodes.length ≤ F →
      leafBodies oct'.node_pool F r = (bodies : Multiset (OctreeBody α)) ∧
      Multiset.card (leafBodies oct'.node_pool F r) = bodies.length := by
  obtain ⟨first, rest, rfl⟩ : ∃ f t, bodies = f :: t := by
    cases bodies with
    | nil => exact absurd rfl hne
    | cons a b => exact ⟨a, b, rfl⟩
  obtain ⟨h0, _, hF⟩ := build_root_spec fuel oct oct' first rest hbuild
  rw [hroot] at h0
  obtain rfl : r = 0 := by
    simpa using h0
  intro F hFlen
  obtain ⟨hlb, _⟩ := hF F hFlen
  refine ⟨hlb, ?_⟩
  rw [hlb, Multiset.coe_card]

/-- Witness for C1 at a concrete single-body build, with fuel 1. -/
theorem octree_build_body_conservation_witness :
    builtSingle.node_pool.nodes.length ≤ 1 ∧
    (leafBodies builtSingle.node_pool 1 0 =
        (([sBody0] : List (OctreeBody ℚ)) : Multiset (OctreeBody ℚ)) ∧
      Multiset.card (leafBodies builtSingle.node_pool 1 0) =
        ([sBody0] : List (OctreeBody ℚ)).length) :=
  ⟨le_of_eq (rfl : builtSingle.node_pool.nodes.length = 1),
    octree_build_body_conservation 1 sampleOct builtSingle [sBody0] 0
      (List.cons_ne_nil sBody0 []) rfl rfl 1
      (le_of_eq (rfl : builtSingle.node_pool.nodes.length = 1))⟩

/-- C2, counterexample: building a single body of mass −1 at (1,0,0)
stores aggregate mass −1 (which is the correct mass sum but not zero)
while reporting the zero vector as center of mass; the mass-weighted
average of the subtree's positions is (1,0,0) ≠ 0.  The code zeroes the
center whenever the aggregate mass is not positive, not only when it is
zero. -/
theorem mass_center_zero_on_negative_mass_cex :
    ((build 1 sampleOct [negBody]).map (fun o =>
      (o.node_pool.getNode 0).map (fun n =>
        (n.hot_data.center_of_mass, n.hot_data.total_mass)))) =
      some (some ((0 : Vec3 ℚ), (-1 : ℚ))) ∧
    specMassWeightedAverage [negBody] = ⟨1, 0, 0⟩ ∧
    ((-1 : ℚ) ≠ 0) ∧ ((0 : Vec3 ℚ) ≠ ⟨1, 0, 0⟩) := by
  have hsmall : ([negBody] : List (OctreeBody ℚ)).length ≤
      sampleOct.leaf_threshold := by decide
  have hm : massSum (([negBody] : List (OctreeBody ℚ)) :
      Multiset (OctreeBody ℚ)) = -1 := by
    rw [massSum_coe]
    norm_num [negBody]
  refine ⟨?_, ?_, by norm_num, ?_⟩
  · rw [build_cons_small 1 sampleOct negBody [] hsmall]
    show some (some
      ((mkExternalNode (buildRootBounds negBody []) [negBody] :
        OptimizedOctreeNode ℚ).hot_data.center_of_mass,
       (mkExternalNode (buildRootBounds negBody []) [negBody] :
        OptimizedOctreeNode ℚ).hot_data.total_mass)) =
      some (some ((0 : Vec3 ℚ), (-1 : ℚ)))
    have hc := (mkExternalNode_hot (buildRootBounds negBody []) [negBody]
      (List.cons_ne_nil negBody [])).2
    have ht := (mkExternalNode_hot (buildRootBounds negBody []) [negBody]
      (List.cons_ne_nil negBody [])).1
    rw [hm] at hc ht
    rw [hc, ht, if_neg (by norm_num)]
  · unfold specMassWeightedAverage
    apply Vec3.ext3 <;>
      norm_num [negBody, Vec3.scale, Vec3.divScalar]
  · intro hcon
    have := congrArg Vec3.x hcon
    norm_num at this

/-- C2, amended.  After every terminating non-empty build, every node of
the tree (internal nodes and leaves alike) stores as `total_mass` exactly
the sum of the masses of the bodies in its subtree, and as
`center_of_mass` the mass-weighted average of their positions whenever
that mass sum is positive, and the zero vector whenever the mass sum is
not positive (zero or negative). -/
theorem octree_build_aggregates_invariant (fuel : ℕ)
    (oct oct' : OptimizedOctree α) (bodies : List (OctreeBody α)) (r : ℕ)
    (hne : bodies ≠ [])
    (hbuild : build fuel oct bodies = some oct')
    (hroot : oct'.root_index = some r) :
    ∀ F, oct'.node_pool.nodes.length ≤ F →
      aggOK oct'.node_pool F r = true := by
  obtain ⟨first, rest, rfl⟩ : ∃ f t, bodies = f :: t := by
    cases bodies with
    | nil => exact absurd rfl hne
    | cons a b => exact ⟨a, b, rfl⟩
  obtain ⟨h0, _, hF⟩ := build_root_spec fuel oct oct' first rest hbuild
  rw [hroot] at h0
  obtain rfl : r = 0 := by
    simpa using h0
  intro F hFlen
  exact (hF F hFlen).2

/-- Witness for C2 (amended) at a concrete single-body build, with fuel 1. -/
theorem octree_build_aggregates_invariant_witness :
    builtSingle.node_pool.nodes.length ≤ 1 ∧
    aggOK builtSingle.node_pool 1 0 = true :=
  ⟨le_of_eq (rfl : builtSingle.node_pool.nodes.length = 1),
    octree_build_aggregates_invariant 1 sampleOct builtSingle [sBody0] 0
      (List.cons_ne_nil sBody0 []) rfl rfl 1
      (le_of_eq (rfl : builtSingle.node_pool.nodes.length = 1))⟩

end ClaimTheorems8

namespace Vec3

variable {α : Type} [LinearOrderedField α]

theorem vle_trans {a b c : Vec3 α} (h1 : vle a b) (h2 : vle b c) :
    vle a c :=
  ⟨le_trans h1.1 h2.1, le_trans h1.2.1 h2.2.1, le_trans h1.2.2 h2.2.2⟩

theorem compMin_vle_left (a b : Vec3 α) : vle (compMin a b) a :=
  ⟨min_le_left _ _, min_le_left _ _, min_le_left _ _⟩

theorem compMin_vle_right (a b : Vec3 α) : vle (compMin a b) b :=
  ⟨min_le_right _ _, min_le_right _ _, min_le_right _ _⟩

theorem vle_compMax_left (a b : Vec3 α) : vle a (compMax a b) :=
  ⟨le_max_left _ _, le_max_left _ _, le_max_left _ _⟩

theorem vle_compMax_right (a b : Vec3 α) : vle b (compMax a b) :=
  ⟨le_max_right _ _, le_max_right _ _, le_max_right _ _⟩

end Vec3

namespace OptimizedOctree

variable {α : Type} [LinearOrderedField α]

theorem foldl_compMin_le (rest : List (OctreeBody α)) :
    ∀ init : Vec3 α,
      Vec3.vle (rest.foldl (fun m b => m.compMin b.position) init) init ∧
      ∀ b ∈ rest,
        Vec3.vle (rest.foldl (fun m b => m.compMin b.position) init)
          b.position := by
  induction rest with
  | nil =>
    intro init
    exact ⟨⟨le_rfl, le_rfl, le_rfl⟩, fun b hb => absurd hb (List.not_mem_nil b)⟩
  | cons a t ih =>
    intro init
    rw [List.foldl_cons]
    obtain ⟨h1, h2⟩ := ih (init.compMin a.position)
    refine ⟨Vec3.vle_trans h1 (Vec3.compMin_vle_left init a.position), ?_⟩
    intro b hb
    rcases List.mem_cons.mp hb with rfl | hmem
    · exact Vec3.vle_trans h1 (Vec3.compMin_vle_right init b.position)
    · exact h2 b hmem

theorem le_foldl_compMax (rest : List (OctreeBody α)) :
    ∀ init : Vec3 α,
      Vec3.vle init (rest.foldl (fun m b => m.compMax b.position) init) ∧
      ∀ b ∈ rest,
        Vec3.vle b.position
          (rest.foldl (fun m b => m.compMax b.position) init) := by
  induction rest with
  | nil =>
    intro init
    exact ⟨⟨le_rfl, le_rfl, le_rfl⟩, fun b hb => absurd hb (List.not_mem_nil b)⟩
  | cons a t ih =>
    intro init
    rw [List.foldl_cons]
    obtain ⟨h1, h2⟩ := ih (init.compMax a.position)
    refine ⟨Vec3.vle_trans (Vec3.vle_compMax_left init a.position) h1, ?_⟩
    intro b hb
    rcases List.mem_cons.mp hb with rfl | hmem
    · exact Vec3.vle_trans (Vec3.vle_compMax_right init b.position) h1
    · exact h2 b hmem

end OptimizedOctree

section ClaimTheorems9

open OptimizedOctree

variable {α : Type} [LinearOrderedField α]

/-- C6, counterexample: building a single body at (1,1,1) (all bodies
coincide there) yields root bounds with `min = max = (1,1,1)`: the
expansion `(max − min) * 0.01` is zero, the body's position lies exactly
on the outer boundary, and the root bounds have zero extent —
contradicting the claim that no body ever lands on the boundary and that
the bounds never have zero extent. -/
theorem root_bounds_coincident_cex :
    ((build 1 sampleOct [coincBody]).map (fun o =>
      (o.node_pool.getNode 0).map (fun n => n.cold_data.bounds))) =
      some (some ⟨⟨1, 1, 1⟩, ⟨1, 1, 1⟩⟩) ∧
    (⟨⟨1, 1, 1⟩, ⟨1, 1, 1⟩⟩ : Aabb3d ℚ).min = coincBody.position ∧
    (⟨⟨1, 1, 1⟩, ⟨1, 1, 1⟩⟩ : Aabb3d ℚ).size = 0 := by
  have hsmall : ([coincBody] : List (OctreeBody ℚ)).length ≤
      sampleOct.leaf_threshold := by decide
  have hrb : buildRootBounds coincBody ([] : List (OctreeBody ℚ)) =
      ⟨⟨1, 1, 1⟩, ⟨1, 1, 1⟩⟩ := by
    unfold buildRootBounds
    simp only [List.foldl_nil]
    congr 1 <;> apply Vec3.ext3 <;>
      norm_num [Vec3.scale, coincBody]
  refine ⟨?_, ?_, ?_⟩
  · rw [build_cons_small 1 sampleOct coincBody [] hsmall]
    show some (some ((mkExternalNode (buildRootBounds coincBody [])
      [coincBody] : OptimizedOctreeNode ℚ)).cold_data.bounds) =
      some (some ⟨⟨1, 1, 1⟩, ⟨1, 1, 1⟩⟩)
    rw [(mkExternalNode_spec (buildRootBounds coincBody [])
      [coincBody]).2.2.1, hrb]
  · show (⟨1, 1, 1⟩ : Vec3 ℚ) = coincBody.position
    rfl
  · apply Vec3.ext3 <;> norm_num [Aabb3d.size]

set_option maxHeartbeats 1600000 in
/-- C6, amended.  For every non-empty collection on which `build`
terminates, the root bounds are the bodies' axis-aligned bounding box
`[lo, hi]` expanded by `(hi − lo) * 0.01` on every side; they contain all
body positions, and on every axis where the bodies' extent is positive
(`lo < hi` on that axis) no body position lies on the outer boundary and
the bounds have positive extent.  When the extent on an axis is zero (in
particular when all bodies coincide) the expansion on that axis is zero
and bodies lie exactly on the boundary there, as the counterexample
shows. -/
theorem root_bounds_expansion (fuel : ℕ) (oct oct' : OptimizedOctree α)
    (first : OctreeBody α) (rest : List (OctreeBody α))
    (hbuild : build fuel oct (first :: rest) = some oct') :
    ∃ n, oct'.root_index = some 0 ∧
      oct'.node_pool.getNode 0 = some n ∧
      n.cold_data.bounds = buildRootBounds first rest ∧
      (∀ b ∈ first :: rest, n.cold_data.bounds.containsPoint b.position) ∧
      (∀ b ∈ first :: rest,
        ((rest.foldl (fun m b => m.compMin b.position) first.position).x <
            (rest.foldl (fun m b => m.compMax b.position) first.position).x →
          n.cold_data.bounds.min.x < b.position.x ∧
            b.position.x < n.cold_data.bounds.max.x) ∧
        ((rest.foldl (fun m b => m.compMin b.position) first.position).y <
            (rest.foldl (fun m b => m.compMax b.position) first.position).y →
          n.cold_data.bounds.min.y < b.position.y ∧
            b.position.y < n.cold_data.bounds.max.y) ∧
        ((rest.foldl (fun m b => m.compMin b.position) first.position).z <
            (rest.foldl (fun m b => m.compMax b.position) first.position).z →
          n.cold_data.bounds.min.z < b.position.z ∧
            b.position.z < n.cold_data.bounds.max.z)) ∧
      (((rest.foldl (fun m b => m.compMin b.position) first.position).x <
          (rest.foldl (fun m b => m.compMax b.position) first.position).x →
        n.cold_data.bounds.min.x < n.cold_data.bounds.max.x) ∧
       ((rest.foldl (fun m b => m.compMin b.position) first.position).y <
          (rest.foldl (fun m b => m.compMax b.position) first.position).y →
        n.cold_data.bounds.min.y < n.cold_data.bounds.max.y) ∧
       ((rest.foldl (fun m b => m.compMin b.position) first.position).z <
          (rest.foldl (fun m b => m.compMax b.position) first.position).z →
        n.cold_data.bounds.min.z < n.cold_data.bounds.max.z)) := by
  obtain ⟨hroot, ⟨n, hn, hbounds⟩, -⟩ :=
    build_root_spec fuel oct oct' first rest hbuild
  set lo := rest.foldl (fun m b => m.compMin b.position) first.position
    with hlo
  set hi := rest.foldl (fun m b => m.compMax b.position) first.position
    with hhi
  have hmin : ∀ b ∈ first :: rest, Vec3.vle lo b.position := by
    intro b hb
    rcases List.mem_cons.mp hb with rfl | hmem
    · exact (foldl_compMin_le rest b.position).1
    · exact (foldl_compMin_le rest first.position).2 b hmem
  have hmax : ∀ b ∈ first :: rest, Vec3.vle b.position hi := by
    intro b hb
    rcases List.mem_cons.mp hb with rfl | hmem
    · exact (le_foldl_compMax rest b.position).1
    · exact (le_foldl_compMax rest first.position).2 b hmem
  have hlohi : Vec3.vle lo hi :=
    Vec3.vle_trans (hmin first (List.mem_cons_self _ _))
      (hmax first (List.mem_cons_self _ _))
  have hbrb : buildRootBounds first rest =
      ⟨lo - (hi - lo).scale (1 / 100), hi + (hi - lo).scale (1 / 100)⟩ := rfl
  rw [hbrb] at hbounds
  have hout : n.cold_data.bounds = buildRootBounds first rest := by
    rw [hbounds, hbrb]
  clear_value lo hi
  clear hbuild hbrb hlo hhi
  refine ⟨n, hroot, hn, hout, ?_, ?_, ?_⟩
  · intro b hb
    rw [hbounds]
    obtain ⟨hm1, hm2, hm3⟩ := hmin b hb
    obtain ⟨hx1, hx2, hx3⟩ := hmax b hb
    obtain ⟨hl1, hl2, hl3⟩ := hlohi
    refine ⟨⟨?_, ?_, ?_⟩, ?_, ?_, ?_⟩ <;>
      simp only [Vec3.sub_def, Vec3.add_def, Vec3.scale] <;> nlinarith
  · intro b hb
    rw [hbounds]
    obtain ⟨hm1, hm2, hm3⟩ := hmin b hb
    obtain ⟨hx1, hx2, hx3⟩ := hmax b hb
    refine ⟨?_, ?_, ?_⟩ <;> intro h <;> constructor <;>
      simp only [Vec3.sub_def, Vec3.add_def, Vec3.scale] <;> nlinarith
  · rw [hbounds]
    obtain ⟨hl1, hl2, hl3⟩ := hlohi
    refine ⟨?_, ?_, ?_⟩ <;> intro h <;>
      simp only [Vec3.sub_def, Vec3.add_def, Vec3.scale] <;> nlinarith

/-- Witness for C6: on the concrete one-body build, the root node exists,
its bounds are the expanded bounding box of the body, and the body's
position is contained in them. -/
theorem root_bounds_expansion_witness :
    ∃ n, builtSingle.node_pool.getNode 0 = some n ∧
      n.cold_data.bounds = buildRootBounds sBody0 [] ∧
      n.cold_data.bounds.containsPoint sBody0.position := by
  obtain ⟨n, h1, h2, h3, h4, h5, h6⟩ :=
    root_bounds_expansion 1 sampleOct builtSingle sBody0 [] rfl
  exact ⟨n, h2, h3, h4 sBody0 (List.mem_cons_self _ _)⟩

end ClaimTheorems9
